import Mathlib

/-!
Verification of the tenant-configuration core (`config_io.py`).

Modelling conventions of this shallow embedding:

* Python strings are modelled as their sequences of Unicode codepoints,
  `PyStr := List Nat`.  Character classification (`str.isalpha`, `str.isalnum`,
  `str.lower`, `str.upper`, `str.strip`) is modelled on the ASCII fragment,
  matching the behaviour of the source on ASCII data.
* Python values (the contents of parsed JSON and of tenant records) are an
  inductive `PyVal`; Python dicts are insertion-ordered association lists.
* Operations that can raise in Python (`in` on a non-container, `.get` /
  subscription on a non-dict, `.strip` on a non-string) return
  `Except PyErr _`; an `Except.error` models a raised exception.
* The filesystem is a map from paths to parsed file content: a file is either
  absent, present but not valid JSON, or a parsed JSON value.  Serialisation
  (`json.dump(..., indent=2, ensure_ascii=False)`) is a deterministic function
  of the value, so equal stored values correspond to equal file bytes.
* In-place mutation of caller records (`tenant['id'] = normalized_key` inside
  `save_tenants`) is modelled by returning the post-call state of the caller's
  store alongside the result; records are assumed to be distinct objects, as
  produced by JSON parsing.
-/

set_option maxRecDepth 100000

namespace ConfigIO

/-- Python strings as codepoint sequences. -/
abbrev PyStr := List Nat

/-- Inject a Lean string literal as a codepoint sequence. -/
def strOf (s : String) : PyStr := s.toList.map Char.toNat

/-- Single-quote character, as used by Python repr and the source f-strings. -/
def sq : PyStr := [39]

/-- ASCII model of Python `str.isupper` on one character. -/
def isUpperA (c : Nat) : Bool := 65 ≤ c && c ≤ 90

/-- ASCII model of lowercase-letter classification. -/
def isLowerA (c : Nat) : Bool := 97 ≤ c && c ≤ 122

/-- ASCII model of Python `str.isalpha` on one character. -/
def isAlphaA (c : Nat) : Bool := isUpperA c || isLowerA c

/-- ASCII model of Python `str.isdigit` on one character. -/
def isDigitA (c : Nat) : Bool := 48 ≤ c && c ≤ 57

/-- ASCII model of Python `str.isalnum` on one character. -/
def isAlnumA (c : Nat) : Bool := isAlphaA c || isDigitA c

/-- ASCII model of Python `str.lower` on one character. -/
def lowerChar (c : Nat) : Nat := if 65 ≤ c ∧ c ≤ 90 then c + 32 else c

/-- ASCII model of Python `str.upper` on one character. -/
def upperChar (c : Nat) : Nat := if 97 ≤ c ∧ c ≤ 122 then c - 32 else c

/-- ASCII whitespace, as stripped by Python `str.strip()`. -/
def isSpaceA (c : Nat) : Bool := c == 32 || c == 9 || c == 10 || c == 13 || c == 11 || c == 12

/-- Drop the maximal trailing run of characters satisfying `p`. -/
def dropTrailing (p : Nat → Bool) : List Nat → List Nat
  | [] => []
  | c :: rest =>
    let r := dropTrailing p rest
    if r = [] ∧ p c = true then [] else c :: r

/-- Model of Python `str.strip()` (no argument: strip whitespace). -/
def stripWS (l : PyStr) : PyStr := dropTrailing isSpaceA (l.dropWhile isSpaceA)

/-- Model of Python `str.strip('-')`. -/
def stripDash (l : PyStr) : PyStr :=
  dropTrailing (fun c => c == 45) (l.dropWhile (fun c => c == 45))

/-- Does the string contain two consecutive dashes (`'--' in s`)? -/
def hasDD : List Nat → Bool
  | a :: b :: rest => (a == 45 && b == 45) || hasDD (b :: rest)
  | _ => false

/-- One pass of Python `s.replace('--', '-')`: replace every non-overlapping
occurrence of two dashes by one, scanning left to right. -/
def replacePairs : List Nat → List Nat
  | a :: b :: rest =>
    if a = 45 ∧ b = 45 then 45 :: replacePairs rest else a :: replacePairs (b :: rest)
  | l => l

/-- The source's `while '--' in normalized:` loop, written with explicit fuel;
each iteration strictly shrinks the string, so `l.length` iterations always
reach the fixpoint (`collapseFuel_hasDD` below). -/
def collapseFuel : Nat → List Nat → List Nat
  | 0, l => l
  | n + 1, l => if hasDD l then collapseFuel n (replacePairs l) else l

/-- Collapse every run of consecutive dashes, as the source's while loop does. -/
def collapseDashes (l : List Nat) : List Nat := collapseFuel l.length l

/-- Model of Python `s.replace(' ', '-')` (single-character replace). -/
def sp2dash (c : Nat) : Nat := if c = 32 then 45 else c

/-- Model of Python `s.replace('_', '-')` (single-character replace). -/
def us2dash (c : Nat) : Nat := if c = 95 then 45 else c

/-- `normalize_tenant_id` from `config_io.py` (lines 16-29): lowercase, replace
spaces and underscores with dashes, collapse runs of dashes, strip leading and
trailing dashes; the empty string is returned unchanged. -/
def normalize_tenant_id (s : PyStr) : PyStr :=
  if s = [] then s
  else
    stripDash (collapseDashes (((s.map lowerChar).map sp2dash).map us2dash))

/-- A character that can occur in a normalizer output: not an uppercase ASCII
letter, not a space, not an underscore. -/
def charOkN (c : Nat) : Bool := !(isUpperA c) && c != 32 && c != 95

/-- Python values as they occur in parsed JSON and tenant records.  Dicts are
insertion-ordered association lists with string keys (JSON object keys). -/
inductive PyVal where
  | none
  | bool (b : Bool)
  | int (n : Int)
  | str (s : PyStr)
  | list (xs : List PyVal)
  | dict (entries : List (PyStr × PyVal))

/-- A Python dict with string keys, in insertion order. -/
abbrev PyDict := List (PyStr × PyVal)

/-- Python exceptions that the modelled operations can raise. -/
inductive PyErr where
  | typeError
  | attributeError
  | keyError
deriving DecidableEq, Repr

/-- Python truthiness (`if not x`). -/
def pyTruthy : PyVal → Bool
  | .none => false
  | .bool b => b
  | .int n => n != 0
  | .str s => !s.isEmpty
  | .list xs => !xs.isEmpty
  | .dict e => !e.isEmpty

/-- Key membership in a dict. -/
def containsKey (e : PyDict) (k : PyStr) : Bool := e.any (fun p => p.1 == k)

/-- Lookup in a dict (first entry with the key, as in Python). -/
def dictGet? (e : PyDict) (k : PyStr) : Option PyVal :=
  (e.find? (fun p => p.1 == k)).map (fun p => p.2)

/-- Lookup with default (`d.get(k, default)`). -/
def dictGetD (e : PyDict) (k : PyStr) (dflt : PyVal) : PyVal :=
  (dictGet? e k).getD dflt

/-- Python dict assignment `d[k] = v`: an existing key keeps its position and
receives the new value, a fresh key is appended. -/
def dictInsert (e : PyDict) (k : PyStr) (v : PyVal) : PyDict :=
  if containsKey e k = true then e.map (fun p => if p.1 == k then (k, v) else p)
  else e ++ [(k, v)]

/-- Does string `pat` occur at the start of `s`? -/
def strStarts : PyStr → PyStr → Bool
  | [], _ => true
  | _ :: _, [] => false
  | a :: as', b :: bs => a == b && strStarts as' bs

/-- Substring containment, as Python `sub in s` on strings. -/
def strInside (pat : PyStr) : PyStr → Bool
  | [] => pat.isEmpty
  | c :: rest => strStarts pat (c :: rest) || strInside pat rest

/-- The Python `in` operator as used by the source (`key in tenant`): key
lookup on dicts, substring test on strings, element equality on lists; raises
`TypeError` on non-containers. -/
def pyContains (k : PyStr) : PyVal → Except PyErr Bool
  | .dict e => .ok (containsKey e k)
  | .str s => .ok (strInside k s)
  | .list xs => .ok (xs.any fun x => match x with | .str s => s == k | _ => false)
  | _ => .error .typeError

/-- Subscription `v[k]` with a string key: dict lookup (raising `KeyError` when
absent), `TypeError` on every other value. -/
def pySubscr (v : PyVal) (k : PyStr) : Except PyErr PyVal :=
  match v with
  | .dict e =>
    match dictGet? e k with
    | some x => .ok x
    | Option.none => .error .keyError
  | _ => .error .typeError

/-- Method call `v.get(k)`: defined on dicts (default `None`), raises
`AttributeError` on every other value. -/
def pyGet (v : PyVal) (k : PyStr) : Except PyErr PyVal :=
  match v with
  | .dict e => .ok (dictGetD e k .none)
  | _ => .error .attributeError

/-- Method call `v.get(k, dflt)`. -/
def pyGetD (v : PyVal) (k : PyStr) (dflt : PyVal) : Except PyErr PyVal :=
  match v with
  | .dict e => .ok (dictGetD e k dflt)
  | _ => .error .attributeError

/-- Method call `v.strip()`: defined on strings, raises `AttributeError`
otherwise. -/
def pyStripM (v : PyVal) : Except PyErr PyStr :=
  match v with
  | .str s => .ok (stripWS s)
  | _ => .error .attributeError

/-- Python `v != t` where `t` is a string: strings compare by contents, any
other value is unequal to a string. -/
def pyNeStr (v : PyVal) (t : PyStr) : Bool :=
  match v with
  | .str s => s != t
  | _ => true

/-- Decimal rendering of a natural number, as Python `str(...)` / f-strings. -/
def natToStr (n : Nat) : PyStr := strOf (toString n)

/-- Comma-space separated concatenation, as in Python container reprs. -/
def joinCommaSep : List PyStr → PyStr
  | [] => []
  | [x] => x
  | x :: y :: rest => x ++ strOf (", ") ++ joinCommaSep (y :: rest)

/-- Python `repr`, as used (via `str` on containers) when the source
interpolates a value into an f-string. -/
def pyRepr : PyVal → PyStr
  | .none => strOf ("None")
  | .bool b => if b then strOf ("True") else strOf ("False")
  | .int n => strOf (toString n)
  | .str s => sq ++ s ++ sq
  | .list xs => [91] ++ joinCommaSep (xs.attach.map fun x => pyRepr x.1) ++ [93]
  | .dict e =>
    [123] ++
      joinCommaSep (e.attach.map fun kv => sq ++ kv.1.1 ++ sq ++ strOf (": ") ++ pyRepr kv.1.2)
      ++ [125]
decreasing_by
  all_goals simp_wf
  · have := List.sizeOf_lt_of_mem x.2
    omega
  · have := List.sizeOf_lt_of_mem kv.2
    rcases kv with ⟨⟨a, b⟩, hmem⟩
    simp_all
    omega

/-- Python `str(v)`, as interpolated by f-strings. -/
def pyToStr : PyVal → PyStr
  | .str s => s
  | v => pyRepr v

/-- Validator results: `(ok, error_message)`. -/
abbrev VResult := Bool × Option PyStr

/-- Shared tail of the package-name messages. -/
def pkgExpected : PyStr := strOf ("Expected format: com.company.app (reverse domain notation)")

/-- The `. Got: '...'` suffix of the detailed messages. -/
def gotSuffix (t : PyStr) : PyStr := strOf (". Got: ") ++ sq ++ t ++ sq

def pkgMsgRequired : PyStr := strOf ("Package name is required. ") ++ pkgExpected

def pkgMsgNotString : PyStr := strOf ("Package name must be a string. ") ++ pkgExpected

def pkgMsgEmpty : PyStr := strOf ("Package name cannot be empty. ") ++ pkgExpected

def pkgMsgTooLong (t : PyStr) : PyStr :=
  strOf ("Package name is too long (") ++ natToStr t.length ++
    strOf (" characters). Maximum length is 100 characters. ") ++ pkgExpected ++ gotSuffix t

def pkgMsgCount (t : PyStr) : PyStr :=
  strOf ("Package name must contain at least 2 parts separated by dots. ") ++ pkgExpected ++
    gotSuffix t

def pkgMsgEmptyPart (t : PyStr) : PyStr :=
  strOf ("Package name contains empty part. ") ++ pkgExpected ++ gotSuffix t

def pkgMsgStart (part t : PyStr) : PyStr :=
  strOf ("Package name part ") ++ sq ++ part ++ sq ++
    strOf (" must start with a letter. ") ++ pkgExpected ++ gotSuffix t

def pkgMsgChars (part t : PyStr) : PyStr :=
  strOf ("Package name part ") ++ sq ++ part ++ sq ++
    strOf (" contains invalid characters. Only lowercase letters, numbers, and underscores are allowed. ")
    ++ pkgExpected ++ gotSuffix t

def pkgMsgLower (part t : PyStr) : PyStr :=
  strOf ("Package name part ") ++ sq ++ part ++ sq ++
    strOf (" should be lowercase. ") ++ pkgExpected ++ gotSuffix t

/-- Python `s.split('.')` (46 is the dot). -/
def splitDot : PyStr → List PyStr
  | [] => [[]]
  | c :: rest =>
    let r := splitDot rest
    if c = 46 then [] :: r
    else
      match r with
      | h :: t => (c :: h) :: t
      | [] => [[c]]

/-- The per-part loop of `validate_package_name` (lines 130-144): empty part,
leading letter, character set, lowercase — in source order, first failure
wins. -/
def checkParts : List PyStr → PyStr → VResult
  | [], _ => (true, Option.none)
  | part :: rest, trimmed =>
    match part with
    | [] => (false, some (pkgMsgEmptyPart trimmed))
    | c :: _ =>
      if isAlphaA c = false then (false, some (pkgMsgStart part trimmed))
      else if (part.all fun ch => isAlnumA ch || ch == 95) = false then
        (false, some (pkgMsgChars part trimmed))
      else if (part == part.map lowerChar) = false then (false, some (pkgMsgLower part trimmed))
      else checkParts rest trimmed

/-- `validate_package_name` from `config_io.py` (lines 95-146). -/
def validate_package_name (package_name : PyVal) : VResult :=
  if pyTruthy package_name = false then (false, some pkgMsgRequired)
  else
    match package_name with
    | .str s =>
      let trimmed := stripWS s
      if trimmed.length = 0 then (false, some pkgMsgEmpty)
      else if trimmed.length > 100 then (false, some (pkgMsgTooLong trimmed))
      else
        let parts := splitDot trimmed
        if parts.length < 2 then (false, some (pkgMsgCount trimmed))
        else checkParts parts trimmed
    | _ => (false, some pkgMsgNotString)

/-- The cross-mark character starting the company-initial messages. -/
def crossM : PyStr := [10060]

/-- `(e.g., 'TKIFTP', 'MB', 'P2L')` -/
def ciExamples : PyStr :=
  strOf ("(e.g., ") ++ sq ++ strOf ("TKIFTP") ++ sq ++ strOf (", ") ++ sq ++ strOf ("MB") ++
    sq ++ strOf (", ") ++ sq ++ strOf ("P2L") ++ sq ++ strOf (")")

def ciMsgRequired : PyStr :=
  crossM ++ strOf (" Company initial is required. Expected: Uppercase alphanumeric string ") ++
    ciExamples

def ciMsgNotString : PyStr :=
  crossM ++ strOf (" Company initial must be a string. Expected: Uppercase alphanumeric string ")
    ++ ciExamples

def ciMsgEmpty : PyStr :=
  crossM ++ strOf (" Company initial cannot be empty. Expected: Uppercase alphanumeric string ")
    ++ ciExamples

def ciMsgTooLong (t : PyStr) : PyStr :=
  crossM ++ strOf (" Company initial is too long (") ++ natToStr t.length ++
    strOf (" characters). Maximum length is 20 characters. Expected format: Uppercase alphanumeric string ")
    ++ ciExamples ++ gotSuffix t

def ciMsgChars (t : PyStr) : PyStr :=
  crossM ++
    strOf (" Company initial contains invalid characters. Only uppercase letters, numbers, and underscores are allowed. Expected format: Uppercase alphanumeric string ")
    ++ ciExamples ++ gotSuffix t

def ciMsgStart (t : PyStr) : PyStr :=
  crossM ++
    strOf (" Company initial must start with a letter. Expected format: Uppercase alphanumeric string starting with a letter ")
    ++ ciExamples ++ gotSuffix t

/-- `validate_company_initial` from `config_io.py` (lines 200-234). -/
def validate_company_initial (company_initial : PyVal) : VResult :=
  if pyTruthy company_initial = false then (false, some ciMsgRequired)
  else
    match company_initial with
    | .str s =>
      let trimmed := stripWS s
      if trimmed.length = 0 then (false, some ciMsgEmpty)
      else if trimmed.length > 20 then (false, some (ciMsgTooLong trimmed))
      else if (trimmed.all fun c => isAlnumA c || c == 95) = false then
        (false, some (ciMsgChars trimmed))
      else if isAlphaA (trimmed.headD 0) = false then (false, some (ciMsgStart trimmed))
      else (true, Option.none)
    | _ => (false, some ciMsgNotString)

/-- Shared tail of the logo-path messages. -/
def lgExpected : PyStr :=
  strOf ("Expected: relative path (e.g., assets/logo.png) or URL (e.g., https://example.com/logo.png)")

def lgMsgNotString : PyStr := strOf ("Logo path must be a string. ") ++ lgExpected

def lgMsgUrlLong (t : PyStr) : PyStr :=
  strOf ("Logo URL is too long (") ++ natToStr t.length ++
    strOf (" characters). Maximum length is 500 characters") ++ gotSuffix t

def lgMsgChar (ch : Nat) (t : PyStr) : PyStr :=
  strOf ("Logo path contains invalid character ") ++ sq ++ [ch] ++ sq ++ strOf (". ") ++
    lgExpected ++ gotSuffix t

def lgMsgAbs (t : PyStr) : PyStr :=
  strOf ("Logo path should be a relative path, not an absolute path. ") ++ lgExpected ++
    gotSuffix t

def lgMsgLong (t : PyStr) : PyStr :=
  strOf ("Logo path is too long (") ++ natToStr t.length ++
    strOf (" characters). Maximum length is 200 characters") ++ gotSuffix t

/-- `validate_logo_path` from `config_io.py` (lines 149-197). -/
def validate_logo_path (logo_path : PyVal) : VResult :=
  if pyTruthy logo_path = false then (true, Option.none)
  else
    match logo_path with
    | .str s =>
      let trimmed := stripWS s
      if trimmed.length = 0 then (true, Option.none)
      else if (strStarts (strOf ("http://")) trimmed || strStarts (strOf ("https://")) trimmed)
          = true then
        if trimmed.length > 500 then (false, some (lgMsgUrlLong trimmed)) else (true, Option.none)
      else
        match ([60, 62, 124, 63, 42, 34].find? fun ch => trimmed.contains ch) with
        | some ch => (false, some (lgMsgChar ch trimmed))
        | Option.none =>
          if (strStarts (strOf ("/")) trimmed ||
              (decide (1 < trimmed.length) && (trimmed.getD 1 0 == 58))) = true then
            (false, some (lgMsgAbs trimmed))
          else if trimmed.length > 200 then (false, some (lgMsgLong trimmed))
          else (true, Option.none)
    | _ => (false, some lgMsgNotString)

/-- One code-side part check, read off the loop body of
`validate_package_name`: non-empty, first character a letter, characters
alphanumeric-or-underscore, and equal to its own lowercasing. -/
def partCodeOk (p : PyStr) : Bool :=
  !p.isEmpty && isAlphaA (p.headD 0) && (p.all fun ch => isAlnumA ch || ch == 95) &&
    (p == p.map lowerChar)

/-- The claim's wording of a valid part: non-empty, starts with a letter, and
contains only lowercase letters, digits, and underscores. -/
def specPartOk (p : PyStr) : Bool :=
  !p.isEmpty && isAlphaA (p.headD 0) && p.all (fun c => isLowerA c || isDigitA c || c == 95)

/-- The claim's wording of `validate_package_name` acceptance: the trimmed
input is at most 100 characters and splits on dots into at least 2 segments,
each of which satisfies `specPartOk`. -/
def specPackageOk (s : PyStr) : Bool :=
  let t := stripWS s
  let parts := splitDot t
  decide (t.length ≤ 100) && decide (2 ≤ parts.length) && parts.all specPartOk

/-- Did the computation return normally (no exception)? -/
def exceptOk : Except PyErr VResult → Bool
  | .ok _ => true
  | .error _ => false

/-- `f"Tenant '{tenant_id}': {error}"` -/
def tmsg (tid msg : PyStr) : PyStr :=
  strOf ("Tenant ") ++ sq ++ tid ++ sq ++ strOf (": ") ++ msg

/-- f-string interpolation of an optional error message (`None` when absent,
which the source never produces on a failing branch). -/
def fstr (o : Option PyStr) : PyStr := o.getD (strOf ("None"))

/-- `f"Tenant ID mismatch: key '{tenant_id}' but id field is '{tenant['id']}'"` -/
def mismatchMsg (tid : PyStr) (idv : PyVal) : PyStr :=
  strOf ("Tenant ID mismatch: key ") ++ sq ++ tid ++ sq ++ strOf (" but id field is ") ++ sq ++
    pyToStr idv ++ sq

/-- `tenant_id.replace('-', '').replace('_', '').upper()` (line 263). -/
def autoInitial (tid : PyStr) : PyStr :=
  ((tid.filter fun c => c != 45).filter fun c => c != 95).map upperChar

/-- The `for feature in tenant['enabledFeatures']` loop (lines 296-300). -/
def checkFeatures : List PyVal → PyStr → PyDict → Except PyErr VResult
  | [], _, _ => .ok (true, Option.none)
  | f :: rest, tid, plugins =>
    match f with
    | .str s =>
      if containsKey plugins s = false then
        .ok (false, some (tmsg tid
          (strOf ("enabledFeatures contains unknown plugin ") ++ sq ++ s ++ sq)))
      else checkFeatures rest tid plugins
    | _ => .ok (false, some (tmsg tid (strOf ("enabledFeatures must contain only strings"))))

/-- Lines 289-302: `enabledFeatures` presence, array check, and the feature
loop. -/
def vt_features (tenant : PyVal) (tid : PyStr) (plugins : PyDict) : Except PyErr VResult :=
  match pyContains (strOf ("enabledFeatures")) tenant with
  | .error ex => .error ex
  | .ok c =>
    if c = false then .ok (false, some (tmsg tid (strOf ("enabledFeatures is required"))))
    else
      match pySubscr tenant (strOf ("enabledFeatures")) with
      | .error ex => .error ex
      | .ok ef =>
        match ef with
        | .list xs => checkFeatures xs tid plugins
        | _ => .ok (false, some (tmsg tid (strOf ("enabledFeatures must be an array"))))

/-- Lines 282-286: `logoPath` (optional, default empty string). -/
def vt_logo (tenant : PyVal) (tid : PyStr) (plugins : PyDict) : Except PyErr VResult :=
  match pyGetD tenant (strOf ("logoPath")) (.str []) with
  | .error ex => .error ex
  | .ok lp =>
    if (validate_logo_path lp).1 = false then
      .ok (false, some (tmsg tid (fstr (validate_logo_path lp).2)))
    else vt_features tenant tid plugins

/-- Lines 273-280: `packageName` required and well-formed. -/
def vt_package (tenant : PyVal) (tid : PyStr) (plugins : PyDict) : Except PyErr VResult :=
  match pyGet tenant (strOf ("packageName")) with
  | .error ex => .error ex
  | .ok pn =>
    if pyTruthy pn = false then .ok (false, some (tmsg tid (strOf ("packageName is required"))))
    else if (validate_package_name pn).1 = false then
      .ok (false, some (tmsg tid (fstr (validate_package_name pn).2)))
    else vt_logo tenant tid plugins

/-- Lines 256-271: `companyInitial`, auto-derived from the tenant ID when the
field is falsy, validated as given otherwise. -/
def vt_initial (tenant : PyVal) (tid : PyStr) (plugins : PyDict) : Except PyErr VResult :=
  match pyGet tenant (strOf ("companyInitial")) with
  | .error ex => .error ex
  | .ok ci =>
    if pyTruthy ci = false then
      if (validate_company_initial (.str (autoInitial tid))).1 = false then
        .ok (false, some (tmsg tid (fstr (validate_company_initial (.str (autoInitial tid))).2)))
      else vt_package tenant tid plugins
    else
      if (validate_company_initial ci).1 = false then
        .ok (false, some (tmsg tid (fstr (validate_company_initial ci).2)))
      else vt_package tenant tid plugins

/-- Lines 251-254: `appName` (failing over to the legacy `name`), non-empty
after strip.  `app_name.strip()` is the one unguarded method call of the
validator: it raises on a truthy non-string value. -/
def vt_appname (tenant : PyVal) (tid : PyStr) (plugins : PyDict) : Except PyErr VResult :=
  match pyGet tenant (strOf ("appName")) with
  | .error ex => .error ex
  | .ok a =>
    match (if pyTruthy a = true then Except.ok a else pyGet tenant (strOf ("name"))) with
    | .error ex => .error ex
    | .ok app_name =>
      if pyTruthy app_name = false then
        .ok (false, some (tmsg tid (strOf ("appName is required"))))
      else
        match pyStripM app_name with
        | .error ex => .error ex
        | .ok stripped =>
          if stripped.isEmpty = true then
            .ok (false, some (tmsg tid (strOf ("appName is required"))))
          else vt_initial tenant tid plugins

/-- `validate_tenant` from `config_io.py` (lines 237-302), head checks
(lines 244-249) then the staged field checks. -/
def validate_tenant (tenant : PyVal) (tid : PyStr) (plugins : PyDict) : Except PyErr VResult :=
  match pyContains (strOf ("id")) tenant with
  | .error ex => .error ex
  | .ok c =>
    if c = false then .ok (false, some (strOf ("Tenant ID is required")))
    else
      match pySubscr tenant (strOf ("id")) with
      | .error ex => .error ex
      | .ok idv =>
        if pyTruthy idv = false then .ok (false, some (strOf ("Tenant ID is required")))
        else if pyNeStr idv tid = true then .ok (false, some (mismatchMsg tid idv))
        else vt_appname tenant tid plugins

/-- The record loop of `validate_all_tenants` (lines 315-318). -/
def validateAllGo (plugins : PyDict) : List (PyStr × PyVal) → Except PyErr VResult
  | [] => .ok (true, Option.none)
  | (k, t) :: rest =>
    match validate_tenant t k plugins with
    | .error ex => .error ex
    | .ok r => if r.1 = false then .ok (false, r.2) else validateAllGo plugins rest

/-- `validate_all_tenants` from `config_io.py` (lines 305-320). -/
def validate_all_tenants (tenants plugins : PyDict) : Except PyErr VResult :=
  if tenants.isEmpty = true then .ok (false, some (strOf ("No tenants found")))
  else validateAllGo plugins tenants

/-- A valid tenant record used in concrete checks. -/
def acmeRec : PyDict :=
  [(strOf ("id"), .str (strOf ("acme"))),
   (strOf ("appName"), .str (strOf ("Acme"))),
   (strOf ("packageName"), .str (strOf ("com.acme.app"))),
   (strOf ("enabledFeatures"), .list [])]

/-- A record whose `appName` is an integer: `"5".strip()` does not exist. -/
def badAppRec : PyDict :=
  [(strOf ("id"), .str (strOf ("a"))), (strOf ("appName"), .int 5)]

/-- A record missing `appName` entirely. -/
def noAppRec : PyDict := [(strOf ("id"), .str (strOf ("bad")))]

/-- Record without a `companyInitial`, keyed by an ID starting with a digit. -/
def digitRec : PyDict := [(strOf ("id"), .str (strOf ("2acme")))]

/-- A dict field that is safe to `.strip()` after a truthiness guard: absent,
falsy, or a string. -/
def strOrFalsy (o : Option PyVal) : Prop :=
  ∀ v, o = some v → pyTruthy v = false ∨ ∃ s, v = PyVal.str s

/-- Parsed content of a present file: unparsable JSON (with the decoder's
message), or a parsed JSON value. -/
inductive FileContent where
  | invalid (msg : PyStr)
  | json (v : PyVal)

/-- The filesystem: paths to file contents, `none` meaning the file is absent.
File bytes are abstracted by their parse outcome; the serialisation
`json.dump(..., indent=2, ensure_ascii=False)` used by `save_tenants` is a
deterministic function of the stored value, so equal stored values are equal
file bytes. -/
abbrev FS := String → Option FileContent

/-- `tenant['id'] = normalized_key`, applied only to dict records
(`isinstance(tenant, dict)` guard, lines 58 and 337). -/
def setTenantId (t : PyVal) (nk : PyStr) : PyVal :=
  match t with
  | .dict e => .dict (dictInsert e (strOf ("id")) (.str nk))
  | _ => t

/-- The normalisation loop of `load_tenants` (lines 53-61) and `save_tenants`
(lines 334-339), which is the same code in both: normalize each key, rewrite a
dict record's `id` to the normalized key, store under the normalized key.  A
later key whose slug collides overwrites the earlier record. -/
def normalizeStore (d : PyDict) : PyDict :=
  d.foldl (fun acc kv =>
    dictInsert acc (normalize_tenant_id kv.1) (setTenantId kv.2 (normalize_tenant_id kv.1))) []

/-- `load_tenants` from `config_io.py` (lines 32-67); `path` is the resolved
path (`file_path or TENANTS_FILE`). -/
def load_tenants (fs : FS) (path : String) : PyDict × Option PyStr :=
  match fs path with
  | Option.none => ([], some (strOf ("File not found: ") ++ strOf path))
  | some (.invalid m) =>
    ([], some (strOf ("Invalid JSON in ") ++ strOf path ++ strOf (": ") ++ m))
  | some (.json v) =>
    match v with
    | .dict d => (normalizeStore d, Option.none)
    | _ =>
      ([], some (strOf ("Invalid format: ") ++ strOf path ++
        strOf (" must contain a JSON object")))

/-- `save_tenants` from `config_io.py` (lines 323-353).  The first component
of the result is the caller-visible store after the call: the normalisation
loop mutates each dict record in place (`tenant['id'] = normalized_key`)
before validation, so the caller's records carry the rewritten `id` even when
the save is rejected.  On validation failure nothing is written and the
filesystem is returned unchanged; on success the serialised normalized store
replaces the file at `path`.  An exception from the validator propagates
(it is raised outside the `try` block). -/
def save_tenants (tenants plugins : PyDict) (fs : FS) (path : String) :
    PyDict × Except PyErr (FS × Bool × Option PyStr) :=
  let post := tenants.map (fun kv => (kv.1, setTenantId kv.2 (normalize_tenant_id kv.1)))
  let normalized := normalizeStore tenants
  match validate_all_tenants normalized plugins with
  | .error ex => (post, .error ex)
  | .ok r =>
    if r.1 = false then (post, .ok (fs, false, r.2))
    else
      (post,
        .ok (fun p => if p = path then some (.json (.dict normalized)) else fs p, true,
          Option.none))

/-- A tenant file keyed `"My Tenant"`. -/
def fsMyTenant : FS := fun p =>
  if p = "tenants.json" then
    some (.json (.dict [(strOf ("My Tenant"), .dict [(strOf ("id"), .str (strOf ("x")))])]))
  else Option.none

/-- The empty filesystem. -/
def fsEmpty : FS := fun _ => Option.none

/-- A store whose only key is not normalized and whose record lacks
`appName`. -/
def myStore : PyDict :=
  [(strOf ("My_Tenant"), PyVal.dict [(strOf ("id"), PyVal.str (strOf ("x")))])]

/-- Is the value a dict? -/
def isDictV : PyVal → Bool
  | .dict _ => true
  | _ => false

/-- Does the record (a dict) store the string `k` under `id`? -/
def recordIdIs (v : PyVal) (k : PyStr) : Bool :=
  match v with
  | .dict e =>
    match dictGet? e (strOf ("id")) with
    | some (.str s) => s == k
    | _ => false
  | _ => false

/-- A tenant file whose record is the integer `5`. -/
def fsIntRecord : FS := fun p =>
  if p = "tenants.json" then some (.json (.dict [(strOf ("A"), .int 5)])) else Option.none

/-- A filesystem holding the valid, normalized `acme` store. -/
def fsAcme : FS := fun p =>
  if p = "tenants.json" then some (.json (.dict [(strOf ("acme"), PyVal.dict acmeRec)]))
  else Option.none

/-! ## Concrete evaluations and proofs

The definitions above translate `config_io.py`; everything below proves
properties of those definitions, claim by claim, with concrete sanity
evaluations first. -/

example : strOf ("ab") = [97, 98] := by decide

example : normalize_tenant_id (strOf ("My Tenant")) = strOf ("my-tenant") := by decide

example : normalize_tenant_id (strOf ("  A__B -- c ")) = strOf ("a-b-c") := by decide

example : normalize_tenant_id (strOf ("---")) = strOf ("") := by decide

theorem charOkN_map (a : Nat) : charOkN (us2dash (sp2dash (lowerChar a))) = true := by
  unfold charOkN us2dash sp2dash lowerChar isUpperA
  by_cases h1 : 65 ≤ a ∧ a ≤ 90
  · rw [if_pos h1, if_neg (by omega : ¬(a + 32 = 32)), if_neg (by omega : ¬(a + 32 = 95))]
    simp only [Bool.and_eq_true, Bool.not_eq_true', bne_iff_ne, ne_eq]
    refine ⟨⟨?_, by omega⟩, by omega⟩
    simp only [Bool.and_eq_false_iff, decide_eq_false_iff_not, not_le]
    omega
  · rw [if_neg h1]
    by_cases h2 : a = 32
    · subst h2; decide
    · rw [if_neg h2]
      by_cases h3 : a = 95
      · subst h3; decide
      · rw [if_neg h3]
        simp only [Bool.and_eq_true, Bool.not_eq_true', bne_iff_ne, ne_eq]
        refine ⟨⟨?_, h2⟩, h3⟩
        simp only [Bool.and_eq_false_iff, decide_eq_false_iff_not, not_le]
        omega

theorem replacePairs_length_le : ∀ l : List Nat, (replacePairs l).length ≤ l.length
  | [] => by simp [replacePairs]
  | [a] => by simp [replacePairs]
  | a :: b :: rest => by
    by_cases h : a = 45 ∧ b = 45
    · rw [replacePairs, if_pos h]
      have := replacePairs_length_le rest
      simp only [List.length_cons]
      omega
    · rw [replacePairs, if_neg h]
      have := replacePairs_length_le (b :: rest)
      simp only [List.length_cons] at this ⊢
      omega

theorem replacePairs_length_lt : ∀ l : List Nat, hasDD l = true → (replacePairs l).length < l.length
  | [], h => by simp [hasDD] at h
  | [a], h => by simp [hasDD] at h
  | a :: b :: rest, h => by
    by_cases hab : a = 45 ∧ b = 45
    · rw [replacePairs, if_pos hab]
      have := replacePairs_length_le rest
      simp only [List.length_cons]
      omega
    · rw [replacePairs, if_neg hab]
      have hdd : hasDD (b :: rest) = true := by
        rw [hasDD] at h
        rcases Bool.or_eq_true_iff.mp h with h1 | h1
        · simp only [Bool.and_eq_true, beq_iff_eq] at h1
          exact absurd h1 hab
        · exact h1
      have := replacePairs_length_lt (b :: rest) hdd
      simp only [List.length_cons] at this ⊢
      omega

theorem mem_replacePairs : ∀ l : List Nat, ∀ c, c ∈ replacePairs l → c ∈ l
  | [], c, h => h
  | [a], c, h => h
  | a :: b :: rest, c, h => by
    by_cases hab : a = 45 ∧ b = 45
    · rw [replacePairs, if_pos hab] at h
      rcases List.mem_cons.mp h with h1 | h1
      · subst h1; simp [hab.1]
      · have := mem_replacePairs rest c h1
        simp [this]
    · rw [replacePairs, if_neg hab] at h
      rcases List.mem_cons.mp h with h1 | h1
      · simp [h1]
      · have := mem_replacePairs (b :: rest) c h1
        simp only [List.mem_cons] at this ⊢
        tauto

theorem mem_collapseFuel : ∀ n : Nat, ∀ l : List Nat, ∀ c, c ∈ collapseFuel n l → c ∈ l
  | 0, l, c, h => h
  | n + 1, l, c, h => by
    rw [collapseFuel] at h
    by_cases hd : hasDD l = true
    · rw [if_pos hd] at h
      exact mem_replacePairs l c (mem_collapseFuel n (replacePairs l) c h)
    · rwa [if_neg hd] at h

theorem mem_dropTrailing (p : Nat → Bool) : ∀ l : List Nat, ∀ c, c ∈ dropTrailing p l → c ∈ l
  | [], c, h => h
  | c0 :: rest, c, h => by
    rw [dropTrailing] at h
    by_cases hg : dropTrailing p rest = [] ∧ p c0 = true
    · rw [if_pos hg] at h
      simp at h
    · rw [if_neg hg] at h
      rcases List.mem_cons.mp h with h1 | h1
      · simp [h1]
      · have := mem_dropTrailing p rest c h1
        simp [this]

theorem mem_dropWhileN (p : Nat → Bool) : ∀ l : List Nat, ∀ c, c ∈ l.dropWhile p → c ∈ l
  | [], c, h => h
  | a :: rest, c, h => by
    rw [List.dropWhile] at h
    by_cases hp : p a
    · rw [hp] at h
      have := mem_dropWhileN p rest c (by simpa using h)
      simp [this]
    · rw [Bool.not_eq_true] at hp
      rw [hp] at h
      exact h

theorem head?_dropWhileN (p : Nat → Bool) :
    ∀ l : List Nat, ∀ c, (l.dropWhile p).head? = some c → p c = false
  | [], c, h => by simp [List.dropWhile] at h
  | a :: rest, c, h => by
    rw [List.dropWhile] at h
    by_cases hp : p a
    · rw [hp] at h
      exact head?_dropWhileN p rest c (by simpa using h)
    · rw [Bool.not_eq_true] at hp
      rw [hp] at h
      simp only [List.head?_cons, Option.some.injEq] at h
      subst h; exact hp

theorem head?_dropTrailing (p : Nat → Bool) :
    ∀ l : List Nat, ∀ c, (dropTrailing p l).head? = some c → l.head? = some c
  | [], c, h => by simp [dropTrailing] at h
  | c0 :: rest, c, h => by
    rw [dropTrailing] at h
    by_cases hg : dropTrailing p rest = [] ∧ p c0 = true
    · rw [if_pos hg] at h
      simp at h
    · rw [if_neg hg] at h
      simpa using h

theorem getLast?_dropTrailing (p : Nat → Bool) :
    ∀ l : List Nat, ∀ c, (dropTrailing p l).getLast? = some c → p c = false
  | [], c, h => by simp [dropTrailing] at h
  | c0 :: rest, c, h => by
    rw [dropTrailing] at h
    by_cases hg : dropTrailing p rest = [] ∧ p c0 = true
    · rw [if_pos hg] at h
      simp at h
    · rw [if_neg hg] at h
      rcases hr : dropTrailing p rest with _ | ⟨d, r2⟩
      · rw [hr] at h
        simp only [List.getLast?_singleton, Option.some.injEq] at h
        subst h
        rw [hr] at hg
        rcases Bool.eq_false_or_eq_true (p c0) with hpc | hpc
        · exact absurd ⟨rfl, hpc⟩ hg
        · exact hpc
      · rw [hr] at h
        rw [List.getLast?_cons_cons] at h
        exact getLast?_dropTrailing p rest c (by rw [hr]; exact h)

theorem hasDD_tail (a : Nat) (l : List Nat) (h : hasDD (a :: l) = false) : hasDD l = false := by
  cases l with
  | nil => rfl
  | cons b rest =>
    rw [hasDD] at h
    exact (Bool.or_eq_false_iff.mp h).2

theorem hasDD_dropWhileN (p : Nat → Bool) :
    ∀ l : List Nat, hasDD l = false → hasDD (l.dropWhile p) = false
  | [], h => h
  | a :: rest, h => by
    rw [List.dropWhile]
    by_cases hp : p a
    · rw [hp]
      exact hasDD_dropWhileN p rest (hasDD_tail a rest h)
    · rw [Bool.not_eq_true] at hp
      rw [hp]
      exact h

theorem hasDD_dropTrailing (p : Nat → Bool) :
    ∀ l : List Nat, hasDD l = false → hasDD (dropTrailing p l) = false
  | [], h => h
  | c0 :: rest, h => by
    rw [dropTrailing]
    by_cases hg : dropTrailing p rest = [] ∧ p c0 = true
    · rw [if_pos hg]; rfl
    · rw [if_neg hg]
      have ih := hasDD_dropTrailing p rest (hasDD_tail c0 rest h)
      rcases hr : dropTrailing p rest with _ | ⟨d, r2⟩
      · rfl
      · rw [hr] at ih
        rw [hasDD, ih, Bool.or_false]
        have hhead : rest.head? = some d :=
          head?_dropTrailing p rest d (by rw [hr]; rfl)
        cases rest with
        | nil => simp at hhead
        | cons e rest2 =>
          simp only [List.head?_cons, Option.some.injEq] at hhead
          subst hhead
          rw [hasDD] at h
          exact (Bool.or_eq_false_iff.mp h).1

theorem collapseFuel_hasDD : ∀ n : Nat, ∀ l : List Nat, l.length ≤ n →
    hasDD (collapseFuel n l) = false
  | 0, l, h => by
    have : l = [] := List.eq_nil_of_length_eq_zero (by omega)
    subst this; rfl
  | n + 1, l, h => by
    rw [collapseFuel]
    by_cases hd : hasDD l = true
    · rw [if_pos hd]
      exact collapseFuel_hasDD n (replacePairs l)
        (by have := replacePairs_length_lt l hd; omega)
    · rw [if_neg hd]
      exact Bool.not_eq_true _ |>.mp hd

theorem collapseFuel_of_not (n : Nat) (l : List Nat) (h : hasDD l = false) :
    collapseFuel n l = l := by
  cases n with
  | zero => rfl
  | succ n => rw [collapseFuel, h]; simp

theorem mapN_id_of (f : Nat → Nat) : ∀ l : List Nat, (∀ c ∈ l, f c = c) → l.map f = l
  | [], _ => rfl
  | a :: rest, h => by
    rw [List.map_cons, h a (by simp), mapN_id_of f rest (fun c hc => h c (by simp [hc]))]

theorem dropWhileN_eq_self (p : Nat → Bool) (l : List Nat)
    (h : ∀ c, l.head? = some c → p c = false) : l.dropWhile p = l := by
  cases l with
  | nil => rfl
  | cons a rest =>
    rw [List.dropWhile, h a rfl]

theorem dropTrailing_eq_self (p : Nat → Bool) :
    ∀ l : List Nat, (∀ c, l.getLast? = some c → p c = false) → dropTrailing p l = l
  | [], _ => rfl
  | c0 :: rest, h => by
    rw [dropTrailing]
    cases rest with
    | nil =>
      have : p c0 = false := h c0 (by simp)
      simp [dropTrailing, this]
    | cons d rest2 =>
      have ih : dropTrailing p (d :: rest2) = d :: rest2 :=
        dropTrailing_eq_self p (d :: rest2)
          (fun c hc => h c (by rw [List.getLast?_cons_cons]; exact hc))
      rw [ih]
      simp

/-- Every character of a normalized tenant ID is neither an uppercase ASCII
letter, nor a space, nor an underscore. -/
theorem normalize_charOk (s : PyStr) (c : Nat) (h : c ∈ normalize_tenant_id s) :
    charOkN c = true := by
  rw [normalize_tenant_id] at h
  by_cases hs : s = []
  · rw [if_pos hs] at h; subst hs; simp at h
  · rw [if_neg hs] at h
    have h1 := mem_dropTrailing _ _ c h
    have h2 := mem_dropWhileN _ _ c h1
    have h3 := mem_collapseFuel _ _ c h2
    simp only [List.mem_map] at h3
    obtain ⟨b, ⟨⟨a, _, rfl⟩, rfl⟩⟩ :
        ∃ b, (∃ a, a ∈ s ∧ sp2dash (lowerChar a) = b) ∧ us2dash b = c := by
      simpa [List.mem_map] using h3
    exact charOkN_map _

/-- The normalized tenant ID never contains two consecutive dashes. -/
theorem hasDD_normalize (s : PyStr) : hasDD (normalize_tenant_id s) = false := by
  rw [normalize_tenant_id]
  by_cases hs : s = []
  · rw [if_pos hs]; subst hs; rfl
  · rw [if_neg hs]
    exact hasDD_dropTrailing _ _ (hasDD_dropWhileN _ _
      (collapseFuel_hasDD _ _ (Nat.le_refl _)))

/-- The normalized tenant ID never starts with a dash. -/
theorem head?_normalize_ne (s : PyStr) (c : Nat)
    (h : (normalize_tenant_id s).head? = some c) : c ≠ 45 := by
  rw [normalize_tenant_id] at h
  by_cases hs : s = []
  · rw [if_pos hs] at h; subst hs; simp at h
  · rw [if_neg hs] at h
    have h1 := head?_dropTrailing _ _ c h
    have h2 := head?_dropWhileN _ _ c h1
    simpa using h2

/-- The normalized tenant ID never ends with a dash. -/
theorem getLast?_normalize_ne (s : PyStr) (c : Nat)
    (h : (normalize_tenant_id s).getLast? = some c) : c ≠ 45 := by
  rw [normalize_tenant_id] at h
  by_cases hs : s = []
  · rw [if_pos hs] at h; subst hs; simp at h
  · rw [if_neg hs] at h
    have := getLast?_dropTrailing _ _ c h
    simpa using this

/-- The tenant-ID normalizer is idempotent. -/
theorem normalize_idem (s : PyStr) :
    normalize_tenant_id (normalize_tenant_id s) = normalize_tenant_id s := by
  by_cases hr : normalize_tenant_id s = []
  · rw [hr]; rfl
  · conv_lhs => rw [normalize_tenant_id]
    rw [if_neg hr]
    have hok : ∀ c ∈ normalize_tenant_id s, charOkN c = true := normalize_charOk s
    have hmap1 : (normalize_tenant_id s).map lowerChar = normalize_tenant_id s := by
      refine mapN_id_of _ _ (fun c hc => ?_)
      have := hok c hc
      unfold charOkN at this
      rw [lowerChar, if_neg]
      intro hcon
      simp only [Bool.and_eq_true, Bool.not_eq_true', bne_iff_ne, ne_eq] at this
      have hu : isUpperA c = true := by
        unfold isUpperA
        simp only [Bool.and_eq_true, decide_eq_true_eq]
        omega
      rw [this.1.1] at hu
      exact Bool.false_ne_true hu
    have hmap2 : (normalize_tenant_id s).map sp2dash = normalize_tenant_id s := by
      refine mapN_id_of _ _ (fun c hc => ?_)
      have := hok c hc
      unfold charOkN at this
      simp only [Bool.and_eq_true, Bool.not_eq_true', bne_iff_ne, ne_eq] at this
      rw [sp2dash, if_neg this.1.2]
    have hmap3 : (normalize_tenant_id s).map us2dash = normalize_tenant_id s := by
      refine mapN_id_of _ _ (fun c hc => ?_)
      have := hok c hc
      unfold charOkN at this
      simp only [Bool.and_eq_true, Bool.not_eq_true', bne_iff_ne, ne_eq] at this
      rw [us2dash, if_neg this.2]
    rw [hmap1, hmap2, hmap3]
    rw [collapseDashes, collapseFuel_of_not _ _ (hasDD_normalize s)]
    rw [stripDash, dropWhileN_eq_self _ _ (fun c hc => by
      have := head?_normalize_ne s c hc
      simpa using this)]
    exact dropTrailing_eq_self _ _ (fun c hc => by
      have := getLast?_normalize_ne s c hc
      simpa using this)

/-- C3: for every string `s`, `normalize_tenant_id` is total and deterministic
(it is a function of the codepoint sequence), idempotent, and its result
contains no uppercase ASCII letter, does not start or end with a dash, and has
no two consecutive dashes. -/
theorem claim_c3_normalize_shape (s : PyStr) :
    normalize_tenant_id (normalize_tenant_id s) = normalize_tenant_id s ∧
    (normalize_tenant_id s).all (fun c => !(isUpperA c)) = true ∧
    ((normalize_tenant_id s).head? == some 45) = false ∧
    ((normalize_tenant_id s).getLast? == some 45) = false ∧
    hasDD (normalize_tenant_id s) = false := by
  refine ⟨normalize_idem s, ?_, ?_, ?_, hasDD_normalize s⟩
  · rw [List.all_eq_true]
    intro c hc
    have := normalize_charOk s c hc
    unfold charOkN at this
    simp only [Bool.and_eq_true] at this
    exact this.1.1
  · rcases hh : (normalize_tenant_id s).head? with _ | c
    · rfl
    · have := head?_normalize_ne s c hh
      simp [this]
  · rcases hh : (normalize_tenant_id s).getLast? with _ | c
    · rfl
    · have := getLast?_normalize_ne s c hh
      simp [this]

example : validate_package_name (.str (strOf ("com.company.app"))) = (true, Option.none) := by
  decide

example : validate_package_name (.str (strOf ("Com.App"))) =
    (false, some (pkgMsgLower (strOf ("Com")) (strOf ("Com.App")))) := by decide

example : validate_package_name (.str (strOf ("single"))) =
    (false, some (pkgMsgCount (strOf ("single")))) := by decide

example : validate_company_initial (.str (strOf ("MB"))) = (true, Option.none) := by decide

example : validate_company_initial (.str (strOf ("2AB"))) =
    (false, some (ciMsgStart (strOf ("2AB")))) := by decide

example : validate_logo_path (.str (strOf ("https://x.com/logo.png"))) = (true, Option.none) := by
  decide

example : validate_logo_path (.str (strOf ("/abs/path.png"))) =
    (false, some (lgMsgAbs (strOf ("/abs/path.png")))) := by decide

example : validate_logo_path (.str (strOf (""))) = (true, Option.none) := by decide

theorem allN_congr (f g : Nat → Bool) : ∀ l : List Nat, (∀ c ∈ l, f c = g c) →
    l.all f = l.all g
  | [], _ => rfl
  | a :: rest, h => by
    rw [List.all_cons, List.all_cons, h a (by simp),
      allN_congr f g rest (fun c hc => h c (by simp [hc]))]

theorem allN_and (f g : Nat → Bool) : ∀ l : List Nat,
    (l.all fun c => f c && g c) = (l.all f && l.all g)
  | [] => rfl
  | a :: rest => by
    rw [List.all_cons, List.all_cons, List.all_cons, allN_and f g rest]
    rcases f a <;> rcases g a <;> simp

theorem beq_lowerChar (c : Nat) : (c == lowerChar c) = !(isUpperA c) := by
  unfold lowerChar isUpperA
  by_cases h : 65 ≤ c ∧ c ≤ 90
  · rw [if_pos h]
    have h1 : (c == c + 32) = false := by
      simp only [beq_eq_false_iff_ne, ne_eq]
      omega
    have h2 : (decide (65 ≤ c) && decide (c ≤ 90)) = true := by
      simp only [Bool.and_eq_true, decide_eq_true_eq]
      omega
    rw [h1, h2]
    rfl
  · rw [if_neg h]
    have h2 : (decide (65 ≤ c) && decide (c ≤ 90)) = false := by
      rcases Nat.lt_or_ge c 65 with hc | hc
      · have : decide (65 ≤ c) = false := by simp; omega
        rw [this, Bool.false_and]
      · have : decide (c ≤ 90) = false := by simp; omega
        rw [this, Bool.and_false]
    rw [h2]
    simp

theorem beq_map_lowerChar : ∀ p : PyStr, (p == p.map lowerChar) = p.all fun c => !(isUpperA c)
  | [] => rfl
  | c :: cs => by
    rw [List.map_cons, List.all_cons, ← beq_map_lowerChar cs, ← beq_lowerChar c]
    show (c :: cs == lowerChar c :: cs.map lowerChar) = _
    rw [List.cons_beq_cons]

theorem charSet_split (c : Nat) :
    ((isAlnumA c || c == 95) && !(isUpperA c)) = (isLowerA c || isDigitA c || c == 95) := by
  unfold isAlnumA isAlphaA isUpperA isLowerA isDigitA
  by_cases h1 : 65 ≤ c ∧ c ≤ 90
  · have e1 : (decide (65 ≤ c) && decide (c ≤ 90)) = true := by simp [h1.1, h1.2]
    have e2 : (decide (97 ≤ c) && decide (c ≤ 122)) = false := by
      have : decide (97 ≤ c) = false := by simp; omega
      rw [this, Bool.false_and]
    have e3 : (decide (48 ≤ c) && decide (c ≤ 57)) = false := by
      have : decide (c ≤ 57) = false := by simp; omega
      rw [this, Bool.and_false]
    have e4 : (c == 95) = false := by
      rw [beq_eq_false_iff_ne]
      omega
    rw [e1, e2, e3, e4]
    simp
  · have e1 : (decide (65 ≤ c) && decide (c ≤ 90)) = false := by
      rcases Nat.lt_or_ge c 65 with hc | hc
      · have : decide (65 ≤ c) = false := by simp; omega
        rw [this, Bool.false_and]
      · have : decide (c ≤ 90) = false := by simp; omega
        rw [this, Bool.and_false]
    rw [e1]
    simp

theorem partCodeOk_eq_specPartOk (p : PyStr) : partCodeOk p = specPartOk p := by
  unfold partCodeOk specPartOk
  rw [beq_map_lowerChar, Bool.and_assoc, ← allN_and]
  rw [allN_congr _ _ p (fun c _ => charSet_split c)]

theorem checkParts_true_iff : ∀ (ps : List PyStr) (t : PyStr),
    checkParts ps t = (true, Option.none) ↔ ps.all partCodeOk = true
  | [], t => by simp [checkParts]
  | part :: rest, t => by
    rw [List.all_cons]
    rcases part with _ | ⟨c, cs⟩
    · rw [checkParts]
      simp [partCodeOk]
    · rw [checkParts]
      by_cases h1 : isAlphaA c = false
      · rw [if_pos h1]
        unfold partCodeOk
        simp only [List.headD_cons, h1]
        simp
      · rw [if_neg h1]
        rw [Bool.not_eq_false] at h1
        by_cases h2 : ((c :: cs).all fun ch => isAlnumA ch || ch == 95) = false
        · rw [if_pos h2]
          unfold partCodeOk
          simp only [h2]
          simp
        · rw [if_neg h2]
          rw [Bool.not_eq_false] at h2
          by_cases h3 : ((c :: cs) == (c :: cs).map lowerChar) = false
          · rw [if_pos h3]
            unfold partCodeOk
            simp only [h3]
            simp
          · rw [if_neg h3]
            rw [Bool.not_eq_false] at h3
            have hok : partCodeOk (c :: cs) = true := by
              unfold partCodeOk
              simp only [List.headD_cons, h1, h2, h3, List.isEmpty_cons]
              rfl
            rw [hok, Bool.true_and]
            exact checkParts_true_iff rest t

/-- C4: `validate_package_name` accepts a string exactly when the trimmed
input is at most 100 characters and splits on dots into at least 2 segments,
each non-empty, starting with a letter, and containing only lowercase letters,
digits and underscores (uppercase is rejected, not lowercased); in particular
`com.company.app` is valid, `Com.App` fails with the lowercase-violation
message, and `single` fails with the segment-count message. -/
theorem claim_c4_validate_package_name :
    (∀ s : PyStr, validate_package_name (.str s) = (true, Option.none) ↔
      specPackageOk s = true) ∧
    validate_package_name (.str (strOf ("com.company.app"))) = (true, Option.none) ∧
    validate_package_name (.str (strOf ("Com.App"))) =
      (false, some (pkgMsgLower (strOf ("Com")) (strOf ("Com.App")))) ∧
    validate_package_name (.str (strOf ("single"))) =
      (false, some (pkgMsgCount (strOf ("single")))) := by
  refine ⟨?_, by decide, by decide, by decide⟩
  intro s
  unfold validate_package_name specPackageOk
  rcases s with _ | ⟨c0, s0⟩
  · simp [pyTruthy, splitDot, stripWS, dropTrailing]
  · have htr : pyTruthy (.str (c0 :: s0)) = true := by simp [pyTruthy]
    rw [htr]
    simp only [Bool.true_eq_false, if_false]
    by_cases h0 : (stripWS (c0 :: s0)).length = 0
    · rw [if_pos h0]
      have ht : stripWS (c0 :: s0) = [] := List.eq_nil_of_length_eq_zero h0
      rw [ht]
      simp [splitDot]
    · rw [if_neg h0]
      by_cases h1 : (stripWS (c0 :: s0)).length > 100
      · rw [if_pos h1]
        have : decide ((stripWS (c0 :: s0)).length ≤ 100) = false := by simp; omega
        rw [this]
        simp
      · rw [if_neg h1]
        by_cases h2 : (splitDot (stripWS (c0 :: s0))).length < 2
        · rw [if_pos h2]
          have : decide (2 ≤ (splitDot (stripWS (c0 :: s0))).length) = false := by
            simp; omega
          rw [this]
          simp
        · rw [if_neg h2]
          have e1 : decide ((stripWS (c0 :: s0)).length ≤ 100) = true := by simp; omega
          have e2 : decide (2 ≤ (splitDot (stripWS (c0 :: s0))).length) = true := by
            simp; omega
          rw [e1, e2, Bool.true_and, Bool.true_and]
          rw [checkParts_true_iff]
          rw [funext partCodeOk_eq_specPartOk]

example : validate_tenant (.dict acmeRec) (strOf ("acme")) [] = .ok (true, Option.none) := rfl

example : validate_tenant (.dict badAppRec) (strOf ("a")) [] = .error .attributeError := rfl

example : validate_tenant (.dict noAppRec) (strOf ("bad")) [] =
    .ok (false, some (tmsg (strOf ("bad")) (strOf ("appName is required")))) := rfl

example : validate_all_tenants
    [(strOf ("acme"), .dict
      [(strOf ("id"), .str (strOf ("acme"))),
       (strOf ("appName"), .str (strOf ("Acme"))),
       (strOf ("packageName"), .str (strOf ("com.acme.app"))),
       (strOf ("enabledFeatures"), .list [.str (strOf ("unknown"))])])] [] =
    .ok (false, some (tmsg (strOf ("acme"))
      (strOf ("enabledFeatures contains unknown plugin ") ++ sq ++ strOf ("unknown") ++ sq))) :=
  rfl

/-! ## Success shape: a validator that returns ok carries no message -/

theorem checkFeatures_true : ∀ (xs : List PyVal) (tid : PyStr) (plugins : PyDict)
    (e : Option PyStr), checkFeatures xs tid plugins = .ok (true, e) → e = Option.none
  | [], tid, plugins, e, h => by
    rw [checkFeatures] at h
    simp only [Except.ok.injEq, Prod.mk.injEq, true_and] at h
    exact h.symm
  | f :: rest, tid, plugins, e, h => by
    rcases f with _ | b | n | s | xs2 | e2
    · rw [checkFeatures] at h <;> first | (simp at h) | (intro s hs; cases hs)
    · rw [checkFeatures] at h <;> first | (simp at h) | (intro s hs; cases hs)
    · rw [checkFeatures] at h <;> first | (simp at h) | (intro s hs; cases hs)
    · rw [checkFeatures] at h
      split at h
      · simp at h
      · exact checkFeatures_true rest tid plugins e h
    · rw [checkFeatures] at h <;> first | (simp at h) | (intro s hs; cases hs)
    · rw [checkFeatures] at h <;> first | (simp at h) | (intro s hs; cases hs)

theorem vt_features_true (t : PyVal) (tid : PyStr) (plugins : PyDict) (e : Option PyStr)
    (h : vt_features t tid plugins = .ok (true, e)) : e = Option.none := by
  rw [vt_features] at h
  split at h
  · simp at h
  · split at h
    · simp at h
    · split at h
      · simp at h
      · split at h
        · exact checkFeatures_true _ _ _ _ h
        · simp at h

theorem vt_logo_true (t : PyVal) (tid : PyStr) (plugins : PyDict) (e : Option PyStr)
    (h : vt_logo t tid plugins = .ok (true, e)) : e = Option.none := by
  rw [vt_logo] at h
  split at h
  · simp at h
  · split at h
    · simp at h
    · exact vt_features_true _ _ _ _ h

theorem vt_package_true (t : PyVal) (tid : PyStr) (plugins : PyDict) (e : Option PyStr)
    (h : vt_package t tid plugins = .ok (true, e)) : e = Option.none := by
  rw [vt_package] at h
  split at h
  · simp at h
  · split at h
    · simp at h
    · split at h
      · simp at h
      · exact vt_logo_true _ _ _ _ h

theorem vt_initial_true (t : PyVal) (tid : PyStr) (plugins : PyDict) (e : Option PyStr)
    (h : vt_initial t tid plugins = .ok (true, e)) : e = Option.none := by
  rw [vt_initial] at h
  split at h
  · simp at h
  · split at h
    · split at h
      · simp at h
      · exact vt_package_true _ _ _ _ h
    · split at h
      · simp at h
      · exact vt_package_true _ _ _ _ h

theorem vt_appname_true (t : PyVal) (tid : PyStr) (plugins : PyDict) (e : Option PyStr)
    (h : vt_appname t tid plugins = .ok (true, e)) : e = Option.none := by
  rw [vt_appname] at h
  split at h
  · simp at h
  · split at h
    · simp at h
    · split at h
      · simp at h
      · split at h
        · simp at h
        · split at h
          · simp at h
          · exact vt_initial_true _ _ _ _ h

theorem validate_tenant_true (t : PyVal) (tid : PyStr) (plugins : PyDict) (e : Option PyStr)
    (h : validate_tenant t tid plugins = .ok (true, e)) : e = Option.none := by
  rw [validate_tenant] at h
  split at h
  · simp at h
  · split at h
    · simp at h
    · split at h
      · simp at h
      · split at h
        · simp at h
        · split at h
          · simp at h
          · exact vt_appname_true _ _ _ _ h

/-! ## Aggregate validator lemmas -/

theorem validateAllGo_all : ∀ (tenants : PyDict) (plugins : PyDict),
    validateAllGo plugins tenants = .ok (true, Option.none) ↔
      ∀ kv ∈ tenants, validate_tenant kv.2 kv.1 plugins = .ok (true, Option.none)
  | [], plugins => by simp [validateAllGo]
  | (k, t) :: rest, plugins => by
    constructor
    · intro h
      rcases hv : validate_tenant t k plugins with ex | r
      · rw [validateAllGo, hv] at h
        simp at h
      · rw [validateAllGo, hv] at h
        rcases r with ⟨rb, re⟩
        cases rb with
        | false => simp at h
        | true =>
          simp only [Bool.true_eq_false, if_false] at h
          have hre : re = Option.none := validate_tenant_true t k plugins re hv
          intro kv hkv
          rcases List.mem_cons.mp hkv with rfl | hkv2
          · rw [hv, hre]
          · exact (validateAllGo_all rest plugins).mp h kv hkv2
    · intro hall
      have h1 : validate_tenant t k plugins = .ok (true, Option.none) :=
        hall (k, t) (by simp)
      rw [validateAllGo, h1]
      simp only [Bool.true_eq_false, if_false]
      exact (validateAllGo_all rest plugins).mpr (fun kv hkv => hall kv (by simp [hkv]))

theorem validateAllGo_firstFail : ∀ (pre : PyDict) (k : PyStr) (t : PyVal) (post : PyDict)
    (plugins : PyDict) (e : Option PyStr),
    (∀ kv ∈ pre, validate_tenant kv.2 kv.1 plugins = .ok (true, Option.none)) →
    validate_tenant t k plugins = .ok (false, e) →
    validateAllGo plugins (pre ++ (k, t) :: post) = .ok (false, e)
  | [], k, t, post, plugins, e, hpre, hf => by
    rw [List.nil_append, validateAllGo, hf]
    simp
  | kv0 :: pre', k, t, post, plugins, e, hpre, hf => by
    rcases kv0 with ⟨k0, t0⟩
    rw [List.cons_append, validateAllGo, hpre (k0, t0) (by simp)]
    simp only [Bool.true_eq_false, if_false]
    exact validateAllGo_firstFail pre' k t post plugins e
      (fun kv hkv => hpre kv (by simp [hkv])) hf

/-- C5 counterexample: the empty-store message is capitalised
(`"No tenants found"`), not the claim's `"no tenants found"`. -/
theorem claim_c5_counterexample :
    validate_all_tenants [] [] = .ok (false, some (strOf ("No tenants found"))) ∧
    (strOf ("No tenants found") == strOf ("no tenants found")) = false :=
  ⟨rfl, by decide⟩

/-- C5 (amended: the empty-store message is `"No tenants found"`): for every
tenant map and plugin catalog, `validate_all_tenants` fails with
`"No tenants found"` on an empty map; on a non-empty map it returns the first
failure produced by `validate_tenant` in insertion order, and returns
`(true, none)` exactly when every record validates. -/
theorem claim_c5_validate_all_tenants (plugins : PyDict) :
    validate_all_tenants [] plugins = .ok (false, some (strOf ("No tenants found"))) ∧
    (∀ (pre : PyDict) (k : PyStr) (t : PyVal) (post : PyDict) (e : Option PyStr),
      (∀ kv ∈ pre, validate_tenant kv.2 kv.1 plugins = .ok (true, Option.none)) →
      validate_tenant t k plugins = .ok (false, e) →
      validate_all_tenants (pre ++ (k, t) :: post) plugins = .ok (false, e)) ∧
    (∀ tenants : PyDict, tenants ≠ [] →
      (validate_all_tenants tenants plugins = .ok (true, Option.none) ↔
        ∀ kv ∈ tenants, validate_tenant kv.2 kv.1 plugins = .ok (true, Option.none))) := by
  refine ⟨rfl, ?_, ?_⟩
  · intro pre k t post e hpre hf
    have hgo := validateAllGo_firstFail pre k t post plugins e hpre hf
    rw [validate_all_tenants]
    rcases pre with _ | ⟨kv0, pre'⟩
    · simpa using hgo
    · simpa using hgo
  · intro tenants hne
    rcases tenants with _ | ⟨kv0, rest⟩
    · exact absurd rfl hne
    · rw [validate_all_tenants]
      simp only [List.isEmpty_cons]
      exact validateAllGo_all (kv0 :: rest) plugins

/-- Concrete instance of C5: a valid record followed by a record missing
`appName` yields exactly the second record's failure. -/
theorem claim_c5_witness :
    validate_all_tenants
      [(strOf ("acme"), PyVal.dict acmeRec), (strOf ("bad"), PyVal.dict noAppRec)] [] =
      .ok (false, some (tmsg (strOf ("bad")) (strOf ("appName is required")))) := by
  have h := (claim_c5_validate_all_tenants []).2.1 [(strOf ("acme"), PyVal.dict acmeRec)]
    (strOf ("bad")) (PyVal.dict noAppRec) []
    (some (tmsg (strOf ("bad")) (strOf ("appName is required"))))
    (fun kv hkv => by
      rw [List.mem_singleton] at hkv
      subst hkv
      rfl)
    rfl
  exact h

/-- C6: when the `companyInitial` field of a dict record is falsy (absent or
empty), `vt_initial` — the companyInitial step of `validate_tenant` — derives
a candidate by removing dashes/underscores from the tenant ID and uppercasing
(`autoInitial`), and the record passes this step exactly when the candidate
passes `validate_company_initial`; a present (truthy) `companyInitial` is
validated as given. -/
theorem claim_c6_company_initial (e : PyDict) (tid : PyStr) (plugins : PyDict) :
    (pyTruthy (dictGetD e (strOf ("companyInitial")) .none) = false →
      ((validate_company_initial (.str (autoInitial tid))).1 = true →
        vt_initial (.dict e) tid plugins = vt_package (.dict e) tid plugins) ∧
      ((validate_company_initial (.str (autoInitial tid))).1 = false →
        vt_initial (.dict e) tid plugins =
          .ok (false, some (tmsg tid
            (fstr (validate_company_initial (.str (autoInitial tid))).2))))) ∧
    (pyTruthy (dictGetD e (strOf ("companyInitial")) .none) = true →
      ((validate_company_initial (dictGetD e (strOf ("companyInitial")) .none)).1 = true →
        vt_initial (.dict e) tid plugins = vt_package (.dict e) tid plugins) ∧
      ((validate_company_initial (dictGetD e (strOf ("companyInitial")) .none)).1 = false →
        vt_initial (.dict e) tid plugins =
          .ok (false, some (tmsg tid
            (fstr (validate_company_initial
              (dictGetD e (strOf ("companyInitial")) .none)).2))))) := by
  constructor
  · intro hfalsy
    constructor
    · intro hok
      rw [vt_initial]
      simp only [pyGet, hfalsy, hok]
      simp
    · intro hbad
      rw [vt_initial]
      simp only [pyGet, hfalsy, hbad]
      simp
  · intro htruthy
    constructor
    · intro hok
      rw [vt_initial]
      simp only [pyGet, htruthy, hok]
      simp
    · intro hbad
      rw [vt_initial]
      simp only [pyGet, htruthy, hbad]
      simp

/-- Concrete instance of C6: the tenant ID `2acme` has no `companyInitial`;
its derived candidate `2ACME` starts with a digit, so the record is rejected
at the companyInitial step. -/
theorem claim_c6_witness :
    vt_initial (.dict digitRec) (strOf ("2acme")) [] =
      .ok (false, some (tmsg (strOf ("2acme"))
        (fstr (validate_company_initial (.str (autoInitial (strOf ("2acme"))))).2))) :=
  ((claim_c6_company_initial digitRec (strOf ("2acme")) []).1 (by decide)).2 (by decide)

/-- C7 counterexample: `validate_tenant` raises `AttributeError` on a record
whose `appName` is the integer `5` (the source calls `.strip()` on it). -/
theorem claim_c7_counterexample :
    validate_tenant (PyVal.dict badAppRec) (strOf ("a")) [] = .error .attributeError ∧
    exceptOk (validate_tenant (PyVal.dict badAppRec) (strOf ("a")) []) = false :=
  ⟨rfl, rfl⟩

theorem checkParts_shape : ∀ (ps : List PyStr) (t : PyStr),
    ((checkParts ps t).2 = Option.none ↔ (checkParts ps t).1 = true)
  | [], t => by simp [checkParts]
  | part :: rest, t => by
    rcases part with _ | ⟨c, cs⟩
    · simp [checkParts]
    · rw [checkParts]
      split
      · simp
      · split
        · simp
        · split
          · simp
          · exact checkParts_shape rest t

theorem validate_package_name_shape (v : PyVal) :
    (validate_package_name v).2 = Option.none ↔ (validate_package_name v).1 = true := by
  rcases v with _ | b | n | s | xs | e
  case str =>
    rw [validate_package_name]
    split
    · simp
    · dsimp only
      split
      · simp
      · split
        · simp
        · split
          · simp
          · exact checkParts_shape _ _
  all_goals
    rw [validate_package_name] <;>
      first
        | (split <;> simp)
        | (intro s hs; cases hs)

theorem validate_company_initial_shape (v : PyVal) :
    (validate_company_initial v).2 = Option.none ↔ (validate_company_initial v).1 = true := by
  rcases v with _ | b | n | s | xs | e
  case str =>
    rw [validate_company_initial]
    split
    · simp
    · dsimp only
      split
      · simp
      · split
        · simp
        · split
          · simp
          · split
            · simp
            · simp
  all_goals
    rw [validate_company_initial] <;>
      first
        | (split <;> simp)
        | (intro s hs; cases hs)

theorem validate_logo_path_shape (v : PyVal) :
    (validate_logo_path v).2 = Option.none ↔ (validate_logo_path v).1 = true := by
  rcases v with _ | b | n | s | xs | e
  case str =>
    rw [validate_logo_path]
    split
    · simp
    · dsimp only
      split
      · simp
      · split
        · split
          · simp
          · simp
        · split
          · simp
          · split
            · simp
            · split
              · simp
              · simp
  all_goals
    rw [validate_logo_path] <;>
      first
        | (split <;> simp)
        | (intro s hs; cases hs)

theorem containsKey_dictGet : ∀ (e : PyDict) (k : PyStr),
    containsKey e k = true → ∃ v, dictGet? e k = some v
  | [], k, h => by simp [containsKey] at h
  | p :: rest, k, h => by
    rcases hp : (p.1 == k) with _ | _
    · have h2 : containsKey rest k = true := by
        rw [containsKey, List.any_cons, hp] at h
        simpa [containsKey] using h
      obtain ⟨v, hv⟩ := containsKey_dictGet rest k h2
      refine ⟨v, ?_⟩
      rw [dictGet?, List.find?_cons, hp]
      exact hv
    · refine ⟨p.2, ?_⟩
      rw [dictGet?, List.find?_cons, hp]
      rfl

theorem checkFeatures_isOk : ∀ (xs : List PyVal) (tid : PyStr) (plugins : PyDict),
    exceptOk (checkFeatures xs tid plugins) = true
  | [], _, _ => rfl
  | f :: rest, tid, plugins => by
    rcases f with _ | b | n | s | xs2 | e2
    · rfl
    · rfl
    · rfl
    · rw [checkFeatures]
      split
      · rfl
      · exact checkFeatures_isOk rest tid plugins
    · rfl
    · rfl

theorem vt_features_isOk (e : PyDict) (tid : PyStr) (plugins : PyDict) :
    exceptOk (vt_features (.dict e) tid plugins) = true := by
  rw [vt_features]
  simp only [pyContains]
  rcases hc : containsKey e (strOf ("enabledFeatures")) with _ | _
  · simp [hc, exceptOk]
  · obtain ⟨v, hv⟩ := containsKey_dictGet e _ hc
    simp only [Bool.true_eq_false, if_false, pySubscr, hv]
    rcases v with _ | b | n | s | xs2 | e2
    · rfl
    · rfl
    · rfl
    · rfl
    · exact checkFeatures_isOk xs2 tid plugins
    · rfl

theorem vt_logo_isOk (e : PyDict) (tid : PyStr) (plugins : PyDict) :
    exceptOk (vt_logo (.dict e) tid plugins) = true := by
  rw [vt_logo]
  simp only [pyGetD]
  split
  · rfl
  · exact vt_features_isOk e tid plugins

theorem vt_package_isOk (e : PyDict) (tid : PyStr) (plugins : PyDict) :
    exceptOk (vt_package (.dict e) tid plugins) = true := by
  rw [vt_package]
  simp only [pyGet]
  split
  · rfl
  · split
    · rfl
    · exact vt_logo_isOk e tid plugins

theorem vt_initial_isOk (e : PyDict) (tid : PyStr) (plugins : PyDict) :
    exceptOk (vt_initial (.dict e) tid plugins) = true := by
  rw [vt_initial]
  simp only [pyGet]
  split
  · split
    · rfl
    · exact vt_package_isOk e tid plugins
  · split
    · rfl
    · exact vt_package_isOk e tid plugins

theorem vt_appname_isOk (e : PyDict) (tid : PyStr) (plugins : PyDict)
    (ha : strOrFalsy (dictGet? e (strOf ("appName"))))
    (hn : strOrFalsy (dictGet? e (strOf ("name")))) :
    exceptOk (vt_appname (.dict e) tid plugins) = true := by
  rw [vt_appname]
  simp only [pyGet]
  rcases hta : pyTruthy (dictGetD e (strOf ("appName")) .none) with _ | _
  · simp only [hta, Bool.false_eq_true, if_false, pyGet]
    rcases htn : pyTruthy (dictGetD e (strOf ("name")) .none) with _ | _
    · simp [htn, exceptOk]
    · rcases hget : dictGet? e (strOf ("name")) with _ | v
      · rw [dictGetD, hget] at htn
        simp [pyTruthy] at htn
      · have hv : dictGetD e (strOf ("name")) PyVal.none = v := by
          rw [dictGetD, hget]
          rfl
        rcases hn v hget with hfal | ⟨s, rfl⟩
        · rw [hv] at htn
          rw [htn] at hfal
          cases hfal
        · rw [hv] at htn ⊢
          simp only [htn, Bool.true_eq_false, if_false, pyStripM]
          split
          · rfl
          · exact vt_initial_isOk e tid plugins
  · rcases hget : dictGet? e (strOf ("appName")) with _ | v
    · rw [dictGetD, hget] at hta
      simp [pyTruthy] at hta
    · have hv : dictGetD e (strOf ("appName")) PyVal.none = v := by
        rw [dictGetD, hget]
        rfl
      rcases ha v hget with hfal | ⟨s, rfl⟩
      · rw [hv] at hta
        rw [hta] at hfal
        cases hfal
      · rw [hv] at hta ⊢
        simp only [hta, if_true, Bool.true_eq_false, if_false, pyStripM]
        split
        · rfl
        · exact vt_initial_isOk e tid plugins

theorem validate_tenant_isOk (e : PyDict) (tid : PyStr) (plugins : PyDict)
    (ha : strOrFalsy (dictGet? e (strOf ("appName"))))
    (hn : strOrFalsy (dictGet? e (strOf ("name")))) :
    exceptOk (validate_tenant (.dict e) tid plugins) = true := by
  rw [validate_tenant]
  simp only [pyContains]
  rcases hc : containsKey e (strOf ("id")) with _ | _
  · simp [hc, exceptOk]
  · obtain ⟨v, hv⟩ := containsKey_dictGet e _ hc
    simp only [Bool.true_eq_false, if_false, pySubscr, hv]
    split
    · rfl
    · split
      · rfl
      · exact vt_appname_isOk e tid plugins ha hn

/-- C7 (amended): the three field validators are total and report failure only
through the returned message (the message is `none` exactly when the result is
`ok`); `validate_tenant` (and hence `validate_all_tenants`) can raise on
ill-typed field values — see the counterexample — but is exception-free on
every dict record whose `appName`/`name` fields are strings or falsy. -/
theorem claim_c7_validator_totality :
    (∀ v : PyVal,
      ((validate_package_name v).2 = Option.none ↔ (validate_package_name v).1 = true) ∧
      ((validate_logo_path v).2 = Option.none ↔ (validate_logo_path v).1 = true) ∧
      ((validate_company_initial v).2 = Option.none ↔ (validate_company_initial v).1 = true)) ∧
    (∀ (e : PyDict) (tid : PyStr) (plugins : PyDict),
      strOrFalsy (dictGet? e (strOf ("appName"))) →
      strOrFalsy (dictGet? e (strOf ("name"))) →
      exceptOk (validate_tenant (PyVal.dict e) tid plugins) = true) :=
  ⟨fun v => ⟨validate_package_name_shape v, validate_logo_path_shape v,
    validate_company_initial_shape v⟩,
   fun e tid plugins ha hn => validate_tenant_isOk e tid plugins ha hn⟩

/-- Concrete instance of C7 (amended): the well-typed `acme` record is
validated without an exception. -/
theorem claim_c7_witness :
    exceptOk (validate_tenant (PyVal.dict acmeRec) (strOf ("acme")) []) = true :=
  claim_c7_validator_totality.2 acmeRec (strOf ("acme")) []
    (fun v hv => by
      have hv2 : some (PyVal.str (strOf ("Acme"))) = some v := hv
      injection hv2 with h2
      exact Or.inr ⟨strOf ("Acme"), h2.symm⟩)
    (fun v hv => by
      have hv2 : (Option.none : Option PyVal) = some v := hv
      cases hv2)

example : load_tenants fsMyTenant "tenants.json" =
    ([(strOf ("my-tenant"), PyVal.dict [(strOf ("id"), PyVal.str (strOf ("my-tenant")))])],
      Option.none) := rfl

example : load_tenants fsMyTenant "other.json" =
    ([], some (strOf ("File not found: ") ++ strOf "other.json") ) := rfl

example : (save_tenants [] [] fsEmpty "tenants.json").2 =
    .ok (fsEmpty, false, some (strOf ("No tenants found"))) := rfl

/-! ## Dict lemmas -/

theorem insert_map_get (k : PyStr) (v : PyVal) : ∀ m : PyDict, containsKey m k = true →
    dictGet? (m.map (fun p => if p.1 == k then (k, v) else p)) k = some v
  | [], h => by simp [containsKey] at h
  | p :: rest, h => by
    rcases hp : (p.1 == k) with _ | _
    · have h2 : containsKey rest k = true := by
        rw [containsKey, List.any_cons, hp] at h
        simpa [containsKey] using h
      rw [List.map_cons, dictGet?, List.find?_cons]
      have hcond : ((if p.1 == k then (k, v) else p).1 == k) = false := by
        rw [hp]
        simpa using hp
      rw [hcond]
      exact insert_map_get k v rest h2
    · rw [List.map_cons, dictGet?, List.find?_cons]
      have hcond : ((if p.1 == k then (k, v) else p).1 == k) = true := by
        rw [hp]
        simp
      rw [hcond]
      rw [hp]
      rfl

theorem append_single_get (k : PyStr) (v : PyVal) : ∀ m : PyDict, containsKey m k = false →
    dictGet? (m ++ [(k, v)]) k = some v
  | [], _ => by
    rw [List.nil_append, dictGet?, List.find?_cons]
    have : (((k, v) : PyStr × PyVal).1 == k) = true := by simp
    rw [this]
    rfl
  | p :: rest, h => by
    rw [containsKey, List.any_cons] at h
    have hp : (p.1 == k) = false := (Bool.or_eq_false_iff.mp h).1
    have h2 : containsKey rest k = false := by
      have := (Bool.or_eq_false_iff.mp h).2
      simpa [containsKey] using this
    rw [List.cons_append, dictGet?, List.find?_cons, hp]
    exact append_single_get k v rest h2

/-- Inserting under a key makes lookup under that key return the new value. -/
theorem dictGet?_insert_self (m : PyDict) (k : PyStr) (v : PyVal) :
    dictGet? (dictInsert m k v) k = some v := by
  rw [dictInsert]
  rcases hc : containsKey m k with _ | _
  · rw [if_neg Bool.false_ne_true]
    exact append_single_get k v m hc
  · rw [if_pos rfl]
    exact insert_map_get k v m hc

/-- Every entry of `dictInsert m k v` is an entry of `m` or the new pair. -/
theorem mem_dictInsert (m : PyDict) (k : PyStr) (v : PyVal) (kv : PyStr × PyVal)
    (h : kv ∈ dictInsert m k v) : kv ∈ m ∨ kv = (k, v) := by
  rw [dictInsert] at h
  split at h
  · rcases List.mem_map.mp h with ⟨p, hp, heq⟩
    by_cases hpk : (p.1 == k) = true
    · rw [if_pos hpk] at heq
      exact Or.inr heq.symm
    · rw [if_neg hpk] at heq
      exact Or.inl (heq ▸ hp)
  · rcases List.mem_append.mp h with h1 | h1
    · exact Or.inl h1
    · exact Or.inr (List.mem_singleton.mp h1)

theorem contains_map_self (k : PyStr) (v : PyVal) : ∀ m : PyDict, containsKey m k = true →
    containsKey (m.map (fun p => if p.1 == k then (k, v) else p)) k = true
  | [], h => by simp [containsKey] at h
  | p :: rest, h => by
    rcases hp : (p.1 == k) with _ | _
    · rw [containsKey, List.any_cons, hp, Bool.false_or] at h
      have ih := contains_map_self k v rest h
      rw [containsKey] at ih
      rw [containsKey, List.map_cons, List.any_cons, ih, Bool.or_true]
    · rw [containsKey, List.map_cons, List.any_cons, hp]
      simp

theorem containsKey_insert_self (m : PyDict) (k : PyStr) (v : PyVal) :
    containsKey (dictInsert m k v) k = true := by
  rw [dictInsert]
  rcases hc : containsKey m k with _ | _
  · rw [if_neg Bool.false_ne_true]
    rw [containsKey, List.any_append]
    have h1 : List.any [(k, v)] (fun p => p.1 == k) = true := by simp
    rw [h1, Bool.or_true]
  · rw [if_pos rfl]
    exact contains_map_self k v m hc

theorem length_dictInsert_le (m : PyDict) (k : PyStr) (v : PyVal) :
    (dictInsert m k v).length ≤ m.length + 1 := by
  rw [dictInsert]
  split
  · rw [List.length_map]
    omega
  · rw [List.length_append, List.length_singleton]

theorem length_dictInsert_contained (m : PyDict) (k : PyStr) (v : PyVal)
    (h : containsKey m k = true) : (dictInsert m k v).length = m.length := by
  rw [dictInsert, if_pos h, List.length_map]

theorem dictGet?_some_contains : ∀ (m : PyDict) (k : PyStr) (w : PyVal),
    dictGet? m k = some w → containsKey m k = true
  | [], k, w, h => by simp [dictGet?] at h
  | p :: rest, k, w, h => by
    rw [containsKey, List.any_cons]
    rcases hp : (p.1 == k) with _ | _
    · rw [dictGet?, List.find?_cons, hp] at h
      have := dictGet?_some_contains rest k w h
      rw [containsKey] at this
      rw [this, Bool.or_true]
    · simp

theorem map_keys_untouched (k : PyStr) (v : PyVal) : ∀ m : PyDict,
    (∀ q ∈ m, (q.1 == k) = false) →
    m.map (fun p => if p.1 == k then (k, v) else p) = m
  | [], _ => rfl
  | p :: rest, h => by
    rw [List.map_cons, if_neg (by rw [h p (by simp)]; exact Bool.false_ne_true),
      map_keys_untouched k v rest (fun q hq => h q (by simp [hq]))]

/-- On a dict with distinct keys, re-inserting the value already stored under
a key is the identity. -/
theorem dictInsert_self_eq : ∀ (m : PyDict) (k : PyStr) (w : PyVal),
    (m.map Prod.fst).Nodup → dictGet? m k = some w → dictInsert m k w = m
  | [], k, w, _, hget => by simp [dictGet?] at hget
  | p :: rest, k, w, hnd, hget => by
    rw [List.map_cons, List.nodup_cons] at hnd
    rcases hp : (p.1 == k) with _ | _
    · have hget2 : dictGet? rest k = some w := by
        rw [dictGet?, List.find?_cons_of_neg] at hget
        · exact hget
        · rw [hp]
          exact Bool.false_ne_true
      have hc : containsKey rest k = true := dictGet?_some_contains rest k w hget2
      have hrest : dictInsert rest k w = rest := dictInsert_self_eq rest k w hnd.2 hget2
      have hcontains : containsKey (p :: rest) k = true := by
        rw [containsKey, List.any_cons, hp, Bool.false_or]
        exact hc
      rw [dictInsert, if_pos hcontains, List.map_cons]
      have hhead : (if p.1 == k then (k, w) else p) = p := by
        rw [if_neg]
        rw [hp]
        exact Bool.false_ne_true
      rw [hhead]
      have hmap : rest.map (fun q => if q.1 == k then (k, w) else q) = rest := by
        have h2 := hrest
        rw [dictInsert, if_pos hc] at h2
        exact h2
      rw [hmap]
    · have hk : p.1 = k := eq_of_beq hp
      have hget2 : p.2 = w := by
        rw [dictGet?, List.find?_cons_of_pos] at hget
        · exact Option.some.inj hget
        · exact hp
      have hcontains : containsKey (p :: rest) k = true := by
        rw [containsKey, List.any_cons, hp, Bool.true_or]
      rw [dictInsert, if_pos hcontains, List.map_cons]
      have hhead : (if p.1 == k then (k, w) else p) = p := by
        rw [if_pos hp, ← hk, ← hget2]
      rw [hhead]
      have hmap : rest.map (fun q => if q.1 == k then (k, w) else q) = rest := by
        refine map_keys_untouched k w rest (fun q hq => ?_)
        have hne : q.1 ≠ k := by
          intro hqe
          apply hnd.1
          rw [hk, ← hqe]
          exact List.mem_map.mpr ⟨q, hq, rfl⟩
        rw [beq_eq_false_iff_ne]
        exact hne
      rw [hmap]

/-! ## Normalisation-loop lemmas -/

theorem normStep_foldl_length : ∀ (d acc : PyDict),
    (d.foldl (fun acc kv =>
      dictInsert acc (normalize_tenant_id kv.1)
        (setTenantId kv.2 (normalize_tenant_id kv.1))) acc).length ≤ acc.length + d.length
  | [], acc => by simp
  | kv :: rest, acc => by
    rw [List.foldl_cons]
    have h1 := normStep_foldl_length rest
      (dictInsert acc (normalize_tenant_id kv.1) (setTenantId kv.2 (normalize_tenant_id kv.1)))
    have h2 := length_dictInsert_le acc (normalize_tenant_id kv.1)
      (setTenantId kv.2 (normalize_tenant_id kv.1))
    simp only [List.length_cons]
    omega

theorem normalizeStore_append_single (d : PyDict) (k : PyStr) (t : PyVal) :
    normalizeStore (d ++ [(k, t)]) =
      dictInsert (normalizeStore d) (normalize_tenant_id k)
        (setTenantId t (normalize_tenant_id k)) := by
  rw [normalizeStore, normalizeStore, List.foldl_append]
  rfl

theorem mem_normalizeStore_fold (P : PyStr × PyVal → Prop)
    (hstep : ∀ k t, P (normalize_tenant_id k, setTenantId t (normalize_tenant_id k))) :
    ∀ (d acc : PyDict), (∀ kv ∈ acc, P kv) →
      ∀ kv ∈ d.foldl (fun acc kv =>
        dictInsert acc (normalize_tenant_id kv.1)
          (setTenantId kv.2 (normalize_tenant_id kv.1))) acc, P kv
  | [], _, hacc, kv, hkv => hacc kv hkv
  | kv0 :: rest, acc, hacc, kv, hkv => by
    rw [List.foldl_cons] at hkv
    refine mem_normalizeStore_fold P hstep rest _ ?_ kv hkv
    intro q hq
    rcases mem_dictInsert _ _ _ q hq with hq1 | hq1
    · exact hacc q hq1
    · rw [hq1]
      exact hstep kv0.1 kv0.2

theorem normalizeStore_fold_id : ∀ (d acc : PyDict),
    (∀ kv ∈ d, normalize_tenant_id kv.1 = kv.1 ∧ setTenantId kv.2 kv.1 = kv.2) →
    (d.map Prod.fst).Nodup →
    (∀ kv ∈ d, containsKey acc kv.1 = false) →
    d.foldl (fun acc kv =>
      dictInsert acc (normalize_tenant_id kv.1)
        (setTenantId kv.2 (normalize_tenant_id kv.1))) acc = acc ++ d
  | [], acc, _, _, _ => by simp
  | kv0 :: rest, acc, hrec, hnd, hacc => by
    rw [List.foldl_cons]
    rcases hrec kv0 (by simp) with ⟨hn0, hs0⟩
    rw [List.map_cons, List.nodup_cons] at hnd
    have hstep : dictInsert acc (normalize_tenant_id kv0.1)
        (setTenantId kv0.2 (normalize_tenant_id kv0.1)) = acc ++ [kv0] := by
      rw [hn0, hs0, dictInsert, if_neg]
      rw [hacc kv0 (by simp)]
      exact Bool.false_ne_true
    rw [hstep]
    have hacc2 : ∀ kv ∈ rest, containsKey (acc ++ [kv0]) kv.1 = false := by
      intro kv hkv
      have h1 : containsKey acc kv.1 = false := hacc kv (by simp [hkv])
      have h2 : (kv0.1 == kv.1) = false := by
        rw [beq_eq_false_iff_ne]
        intro heq
        apply hnd.1
        rw [heq]
        exact List.mem_map.mpr ⟨kv, hkv, rfl⟩
      rw [containsKey, List.any_append]
      rw [containsKey] at h1
      rw [h1, Bool.false_or, List.any_cons, h2, List.any_nil, Bool.or_false]
    have ih := normalizeStore_fold_id rest (acc ++ [kv0])
      (fun kv hkv => hrec kv (by simp [hkv])) hnd.2 hacc2
    rw [ih, List.append_assoc]
    rfl

/-- On an already-normalized store with distinct keys whose dict records
already carry `id = key`, the normalisation loop is the identity. -/
theorem normalizeStore_eq_self (d : PyDict)
    (hnd : (d.map Prod.fst).Nodup)
    (hrec : ∀ kv ∈ d, normalize_tenant_id kv.1 = kv.1 ∧
      ∃ e, kv.2 = PyVal.dict e ∧ (e.map Prod.fst).Nodup ∧
        dictGet? e (strOf ("id")) = some (.str kv.1)) :
    normalizeStore d = d := by
  have hrec2 : ∀ kv ∈ d, normalize_tenant_id kv.1 = kv.1 ∧ setTenantId kv.2 kv.1 = kv.2 := by
    intro kv hkv
    rcases hrec kv hkv with ⟨h1, e, he, hnde, hget⟩
    refine ⟨h1, ?_⟩
    rw [he]
    show PyVal.dict (dictInsert e (strOf ("id")) (.str kv.1)) = PyVal.dict e
    rw [dictInsert_self_eq e _ _ hnde hget]
  rw [normalizeStore, normalizeStore_fold_id d [] hrec2 hnd (fun kv _ => rfl)]
  rfl

/-- C1: whenever the aggregate validation of the re-normalized store fails,
`save_tenants` returns `(false, the validation error)` and the filesystem is
returned unchanged — in particular the target file keeps its prior contents,
so the persisted file never receives an invalid record. -/
theorem claim_c1_save_rejected_no_write (tenants plugins : PyDict) (fs : FS) (path : String)
    (e : Option PyStr)
    (h : validate_all_tenants (normalizeStore tenants) plugins = .ok (false, e)) :
    (save_tenants tenants plugins fs path).2 = .ok (fs, false, e) := by
  rw [save_tenants]
  rw [h]
  rfl

/-- Concrete instance of C1: saving an empty store fails validation and leaves
the (empty) filesystem untouched. -/
theorem claim_c1_witness :
    (save_tenants [] [] fsEmpty "tenants.json").2 =
      .ok (fsEmpty, false, some (strOf ("No tenants found"))) :=
  claim_c1_save_rejected_no_write [] [] fsEmpty "tenants.json"
    (some (strOf ("No tenants found"))) rfl

/-- C9: `save_tenants` rewrites each dict-valued record's `id` to the
normalized form of its key before validating, and this is visible in the
caller's store (modelled by the first component of the result) even when
validation fails and nothing is written. -/
theorem claim_c9_save_mutates_store (tenants plugins : PyDict) (fs : FS) (path : String)
    (e : Option PyStr)
    (h : validate_all_tenants (normalizeStore tenants) plugins = .ok (false, e)) :
    (save_tenants tenants plugins fs path).1 =
      tenants.map (fun kv => (kv.1, setTenantId kv.2 (normalize_tenant_id kv.1))) ∧
    (save_tenants tenants plugins fs path).2 = .ok (fs, false, e) := by
  rw [save_tenants]
  rw [h]
  exact ⟨rfl, rfl⟩

/-- Concrete instance of C9: the save is rejected (`appName` missing), yet the
caller's record now carries `id = "my-tenant"`. -/
theorem claim_c9_witness :
    (save_tenants myStore [] fsEmpty "tenants.json").1 =
      [(strOf ("My_Tenant"), PyVal.dict [(strOf ("id"), PyVal.str (strOf ("my-tenant")))])] ∧
    (save_tenants myStore [] fsEmpty "tenants.json").2 =
      .ok (fsEmpty, false, some (tmsg (strOf ("my-tenant")) (strOf ("appName is required")))) :=
  claim_c9_save_mutates_store myStore [] fsEmpty "tenants.json"
    (some (tmsg (strOf ("my-tenant")) (strOf ("appName is required")))) rfl

/-- C2 counterexample: a JSON object whose value is not an object loads with a
`null` error, but the record stored under the (normalized) key is not a dict
and carries no `id` field at all, contradicting "the record stored under k has
its `id` field equal to k". -/
theorem claim_c2_counterexample :
    load_tenants fsIntRecord "tenants.json" = ([(strOf ("a"), PyVal.int 5)], Option.none) ∧
    isDictV (PyVal.int 5) = false ∧
    recordIdIs (PyVal.int 5) (strOf ("a")) = false :=
  ⟨rfl, rfl, rfl⟩

/-- C2 (amended: only dict-valued records get an `id`; non-dict JSON values
are kept as-is): for every file parsing as a JSON object, `load_tenants`
returns `(map, null)` where every key is in normalized form and every
dict-valued record stores its key under `id`. -/
theorem claim_c2_load_normalizes (fs : FS) (path : String) (d : PyDict)
    (hfs : fs path = some (.json (.dict d))) :
    load_tenants fs path = (normalizeStore d, Option.none) ∧
    ∀ kv ∈ normalizeStore d,
      normalize_tenant_id kv.1 = kv.1 ∧
      (isDictV kv.2 = true → recordIdIs kv.2 kv.1 = true) := by
  constructor
  · rw [load_tenants, hfs]
  · intro kv hkv
    refine mem_normalizeStore_fold
      (fun kv => normalize_tenant_id kv.1 = kv.1 ∧
        (isDictV kv.2 = true → recordIdIs kv.2 kv.1 = true))
      ?_ d [] (fun q hq => absurd hq (List.not_mem_nil q)) kv hkv
    intro k t
    refine ⟨normalize_idem k, ?_⟩
    intro hdict
    rcases t with _ | b | n | s | xs | e
    · exact Bool.noConfusion hdict
    · exact Bool.noConfusion hdict
    · exact Bool.noConfusion hdict
    · exact Bool.noConfusion hdict
    · exact Bool.noConfusion hdict
    · show recordIdIs
        (PyVal.dict (dictInsert e (strOf ("id")) (.str (normalize_tenant_id k))))
        (normalize_tenant_id k) = true
      rw [recordIdIs, dictGet?_insert_self]
      simp

/-- Concrete instance of C2 (amended): the file keyed `"My Tenant"` loads as a
store keyed `"my-tenant"` whose record's `id` is `"my-tenant"`. -/
theorem claim_c2_witness :
    load_tenants fsMyTenant "tenants.json" =
      ([(strOf ("my-tenant"), PyVal.dict [(strOf ("id"), PyVal.str (strOf ("my-tenant")))])],
        Option.none) :=
  (claim_c2_load_normalizes fsMyTenant "tenants.json"
    [(strOf ("My Tenant"), PyVal.dict [(strOf ("id"), PyVal.str (strOf ("x")))])] rfl).1

/-- C10: when two distinct keys normalize to the same slug, the normalisation
loop shared by `load_tenants` and `save_tenants` keeps only the later record
under the shared normalized key, the resulting store is strictly smaller than
the input, and `load_tenants` still reports no error. -/
theorem claim_c10_collision_merge (d : PyDict) (k1 k2 : PyStr) (t1 t2 : PyVal)
    (fs : FS) (path : String)
    (hcol : normalize_tenant_id k1 = normalize_tenant_id k2) :
    dictGet? (normalizeStore (d ++ [(k1, t1), (k2, t2)])) (normalize_tenant_id k2) =
      some (setTenantId t2 (normalize_tenant_id k2)) ∧
    (normalizeStore (d ++ [(k1, t1), (k2, t2)])).length < (d ++ [(k1, t1), (k2, t2)]).length ∧
    (fs path = some (.json (.dict (d ++ [(k1, t1), (k2, t2)]))) →
      load_tenants fs path = (normalizeStore (d ++ [(k1, t1), (k2, t2)]), Option.none)) := by
  have hsplit : d ++ [(k1, t1), (k2, t2)] = (d ++ [(k1, t1)]) ++ [(k2, t2)] := by simp
  have heq : normalizeStore (d ++ [(k1, t1), (k2, t2)]) =
      dictInsert
        (dictInsert (normalizeStore d) (normalize_tenant_id k1)
          (setTenantId t1 (normalize_tenant_id k1)))
        (normalize_tenant_id k2) (setTenantId t2 (normalize_tenant_id k2)) := by
    rw [hsplit, normalizeStore_append_single, normalizeStore_append_single]
  refine ⟨?_, ?_, ?_⟩
  · rw [heq]
    exact dictGet?_insert_self _ _ _
  · rw [heq]
    have hlen1 : (normalizeStore d).length ≤ d.length := by
      have h := normStep_foldl_length d []
      rw [normalizeStore]
      simpa using h
    have hcontains : containsKey
        (dictInsert (normalizeStore d) (normalize_tenant_id k1)
          (setTenantId t1 (normalize_tenant_id k1))) (normalize_tenant_id k2) = true := by
      rw [← hcol]
      exact containsKey_insert_self _ _ _
    rw [length_dictInsert_contained _ _ _ hcontains]
    have h2 := length_dictInsert_le (normalizeStore d) (normalize_tenant_id k1)
      (setTenantId t1 (normalize_tenant_id k1))
    rw [List.length_append]
    simp only [List.length_cons, List.length_nil]
    omega
  · intro hfs
    rw [load_tenants, hfs]

/-- Concrete instance of C10: `"My Tenant"` and `"my_tenant"` collide on the
slug `"my-tenant"`; the merged store keeps only the second record and shrinks
from 2 entries to 1. -/
theorem claim_c10_witness :
    dictGet? (normalizeStore
        [(strOf ("My Tenant"), PyVal.dict [(strOf ("id"), PyVal.str (strOf ("a")))]),
         (strOf ("my_tenant"), PyVal.dict [(strOf ("id"), PyVal.str (strOf ("b")))])])
      (normalize_tenant_id (strOf ("my_tenant"))) =
      some (setTenantId (PyVal.dict [(strOf ("id"), PyVal.str (strOf ("b")))])
        (normalize_tenant_id (strOf ("my_tenant")))) ∧
    (normalizeStore
        [(strOf ("My Tenant"), PyVal.dict [(strOf ("id"), PyVal.str (strOf ("a")))]),
         (strOf ("my_tenant"), PyVal.dict [(strOf ("id"), PyVal.str (strOf ("b")))])]).length <
      ([(strOf ("My Tenant"), PyVal.dict [(strOf ("id"), PyVal.str (strOf ("a")))]),
        (strOf ("my_tenant"), PyVal.dict [(strOf ("id"), PyVal.str (strOf ("b")))])] :
        PyDict).length := by
  have h := claim_c10_collision_merge []
    (strOf ("My Tenant")) (strOf ("my_tenant"))
    (PyVal.dict [(strOf ("id"), PyVal.str (strOf ("a")))])
    (PyVal.dict [(strOf ("id"), PyVal.str (strOf ("b")))])
    fsEmpty "tenants.json" (by decide)
  exact ⟨h.1, h.2.1⟩

/-- C8: on a file holding an already-valid, already-normalized store (distinct
normalized keys, dict records with distinct field keys whose `id` equals the
key, validating against the catalog), `load_tenants` returns the store as-is
and `save_tenants` rewrites the file with the identical stored value — the
filesystem after the round-trip equals the original.  File bytes are a
deterministic function of the stored value (2-space-indented `json.dump`), so
equality of stored values is byte identity. -/
theorem claim_c8_roundtrip (fs : FS) (path : String) (d : PyDict) (plugins : PyDict)
    (hfs : fs path = some (.json (.dict d)))
    (hnd : (d.map Prod.fst).Nodup)
    (hrec : ∀ kv ∈ d, normalize_tenant_id kv.1 = kv.1 ∧
      ∃ e, kv.2 = PyVal.dict e ∧ (e.map Prod.fst).Nodup ∧
        dictGet? e (strOf ("id")) = some (.str kv.1))
    (hval : validate_all_tenants d plugins = .ok (true, Option.none)) :
    load_tenants fs path = (d, Option.none) ∧
    (save_tenants (load_tenants fs path).1 plugins fs path).2 = .ok (fs, true, Option.none) := by
  have hns : normalizeStore d = d := normalizeStore_eq_self d hnd hrec
  have hload : load_tenants fs path = (d, Option.none) := by
    have h0 : load_tenants fs path = (normalizeStore d, Option.none) := by
      rw [load_tenants, hfs]
    rw [h0, hns]
  refine ⟨hload, ?_⟩
  rw [hload]
  rw [save_tenants]
  dsimp only
  rw [hns, hval]
  have hfun : (fun p => if p = path then some (FileContent.json (PyVal.dict d)) else fs p)
      = fs := by
    funext p
    by_cases hp : p = path
    · rw [if_pos hp, hp, hfs]
    · rw [if_neg hp]
  show Except.ok
      ((fun p => if p = path then some (FileContent.json (PyVal.dict d)) else fs p), true,
        (Option.none : Option PyStr)) = Except.ok (fs, true, Option.none)
  rw [hfun]

/-- Concrete instance of C8: loading and re-saving the valid `acme` store
leaves the filesystem identical. -/
theorem claim_c8_witness :
    load_tenants fsAcme "tenants.json" =
      ([(strOf ("acme"), PyVal.dict acmeRec)], Option.none) ∧
    (save_tenants (load_tenants fsAcme "tenants.json").1 [] fsAcme "tenants.json").2 =
      .ok (fsAcme, true, Option.none) :=
  claim_c8_roundtrip fsAcme "tenants.json" [(strOf ("acme"), PyVal.dict acmeRec)] []
    rfl
    (by decide)
    (fun kv hkv => by
      rw [List.mem_singleton] at hkv
      subst hkv
      exact ⟨by decide, acmeRec, rfl, by decide, rfl⟩)
    rfl

end ConfigIO

